import Mathlib

set_option linter.unusedSectionVars false

/-!
Verification of the paged B+Tree storage engine.

Part A embeds the byte-level slotted page layer: the little-endian header
codec and FNV-1a page checksum (`src/storage/page_header.h`) and the
slotted `Page` class (the complete variant of `page.h`): `init_header`,
`insert_item`, `get_leaf_entry`, `delete_item`, `compact`, `search_key`,
`deserialize_from_buffer`.

Part B embeds the in-memory paged B+Tree (`PagedBPlusTree` together with
its `BufferPoolManager` and array-based `Page`): `findLeafPage`, `insert`,
`splitLeafPage`, `splitInternalPage`, `insertInternal`, `search`,
`rangeQuery`.

Machine integers are modelled as `Nat` with explicit `% 2^w` where the C
code can wrap (`uint16` pointer arithmetic, `uint32` checksum state); C
`int` values (keys, values) are modelled as `Int`, encoded into bytes as
32-bit two's complement.  A byte buffer is a total function `Nat → Nat`
holding byte values; multi-byte little-endian loads `p[0] | (p[1] << 8) | …`
of disjoint byte lanes are written as the equal lane sum
`p[0] + p[1]*2^8 + …`, and the `& 0xFF` store masks as `% 256`.
-/

namespace DBE

/-- A page byte buffer: byte value at each offset. -/
def Buf : Type := Nat → Nat

/-- Store one byte (a `uint8` store: the value is masked by the cast). -/
def writeByte (b : Buf) (i v : Nat) : Buf := fun j => if j = i then v % 256 else b j

/-- `write_u16_le`: `p[0] = v & 0xFF; p[1] = (v >> 8) & 0xFF`. -/
def write_u16_le (b : Buf) (p v : Nat) : Buf :=
  writeByte (writeByte b p v) (p + 1) (v / 256)

/-- `write_u32_le`: four byte stores, least significant first. -/
def write_u32_le (b : Buf) (p v : Nat) : Buf :=
  writeByte (writeByte (writeByte (writeByte b p v) (p + 1) (v / 256)) (p + 2) (v / 65536))
    (p + 3) (v / 16777216)

/-- `write_u64_le`: low `uint32` then high `uint32`. -/
def write_u64_le (b : Buf) (p v : Nat) : Buf :=
  write_u32_le (write_u32_le b p (v % 4294967296)) (p + 4) (v / 4294967296 % 4294967296)

/-- `read_u16_le`: `p[0] | (p[1] << 8)` (disjoint lanes, written as a sum). -/
def read_u16_le (b : Buf) (p : Nat) : Nat := b p + b (p + 1) * 256

/-- `read_u32_le`. -/
def read_u32_le (b : Buf) (p : Nat) : Nat :=
  b p + b (p + 1) * 256 + b (p + 2) * 65536 + b (p + 3) * 16777216

/-- `read_u64_le`: `read_u32_le p | (read_u32_le (p+4) << 32)`. -/
def read_u64_le (b : Buf) (p : Nat) : Nat :=
  read_u32_le b p + read_u32_le b (p + 4) * 4294967296

/-- The fixed 30-byte page header (`#pragma pack(1)` struct `PageHeader`). -/
structure PageHeader where
  checksum : Nat
  magic : Nat
  version : Nat
  page_type : Nat
  lsn : Nat
  page_id : Nat
  upper_ptr : Nat
  lower_ptr : Nat
  key_count : Nat
deriving Repr, DecidableEq

/-- `serialize_header`: every field at its fixed offset, little-endian. -/
def serialize_header (h : PageHeader) (buf : Buf) : Buf :=
  write_u16_le (write_u16_le (write_u16_le (write_u32_le (write_u64_le (write_u16_le
    (write_u16_le (write_u32_le (write_u32_le buf 0 h.checksum) 4 h.magic) 8 h.version)
    10 h.page_type) 12 h.lsn) 20 h.page_id) 24 h.upper_ptr) 26 h.lower_ptr) 28 h.key_count

/-- `deserialize_header`: read every field back from its fixed offset. -/
def deserialize_header (buf : Buf) : PageHeader where
  checksum := read_u32_le buf 0
  magic := read_u32_le buf 4
  version := read_u16_le buf 8
  page_type := read_u16_le buf 10
  lsn := read_u64_le buf 12
  page_id := read_u32_le buf 20
  upper_ptr := read_u16_le buf 24
  lower_ptr := read_u16_le buf 26
  key_count := read_u16_le buf 28

/-- One step of the FNV-1a hash: `sum = (sum ^ byte) * prime` on `uint32`. -/
def fnvStep (sum byte : Nat) : Nat := ((sum ^^^ byte) * 16777619) % 4294967296

/-- The `simple_checksum` loop: `n` remaining bytes, next index `i`. -/
def csGo (data : Buf) : Nat → Nat → Nat → Nat
  | sum, _, 0 => sum
  | sum, i, n + 1 => csGo data (fnvStep sum (data i)) (i + 1) n

/-- `simple_checksum(data, len)` seeded with the FNV offset basis. -/
def simple_checksum (data : Buf) (len : Nat) : Nat := csGo data 2166136261 0 len

/-- The view `page_buf + k` of a buffer. -/
def shiftBuf (b : Buf) (k : Nat) : Buf := fun i => b (i + k)

/-- `finalize_page_checksum`: hash bytes `[4, 4096)` and store at offset 0. -/
def finalize_page_checksum (b : Buf) : Buf :=
  write_u32_le b 0 (simple_checksum (shiftBuf b 4) 4092)

/-- `verify_page_checksum`: stored checksum equals the recomputed one. -/
def verify_page_checksum (b : Buf) : Bool :=
  read_u32_le b 0 == simple_checksum (shiftBuf b 4) 4092

/-- Reinterpret a `uint32` bit pattern as a C `int` (32-bit two's complement). -/
def int32OfU32 (u : Nat) : Int :=
  if u < 2147483648 then (u : Int) else (u : Int) - 4294967296

/-- The four little-endian bytes of a C `int` (32-bit two's complement). -/
def int32Bytes (z : Int) : List Nat :=
  [(z % 4294967296).toNat % 256, (z % 4294967296).toNat / 256 % 256,
   (z % 4294967296).toNat / 65536 % 256, (z % 4294967296).toNat / 16777216 % 256]

/-- The four little-endian bytes of a `uint32`. -/
def u32Bytes (u : Nat) : List Nat :=
  [u % 256, u / 256 % 256, u / 65536 % 256, u / 16777216 % 256]

/-- `LeafNode { int key; int value; }`. -/
structure LeafNode where
  key : Int
  value : Int
deriving Repr, DecidableEq

/-- `InternalNode { int key; uint32_t child_page_id; }`. -/
structure InternalNode where
  key : Int
  child_page_id : Nat
deriving Repr, DecidableEq

/-- Byte image of a `LeafNode` (packed, little-endian x86 layout). -/
def leafNodeBytes (e : LeafNode) : List Nat := int32Bytes e.key ++ int32Bytes e.value

/-- Byte image of an `InternalNode`. -/
def internalNodeBytes (e : InternalNode) : List Nat :=
  int32Bytes e.key ++ u32Bytes e.child_page_id

/-- `memcpy(data + off, src, n)`: source bytes are `uint8` values. -/
def memcpyBuf (b : Buf) (off : Nat) (src : List Nat) (n : Nat) : Buf :=
  fun j => if off ≤ j ∧ j < off + n then src.getD (j - off) 0 % 256 else b j

/-- `memmove(data + dst, data + src, n)` within one buffer. -/
def moveBytes (b : Buf) (dst src n : Nat) : Buf :=
  fun j => if dst ≤ j ∧ j < dst + n then b (src + (j - dst)) else b j

/-- `uint16` subtraction (wraps modulo `2^16`). -/
def u16sub (a b : Nat) : Nat := (a % 65536 + 65536 - b % 65536) % 65536

/-- The slotted `Page`: 4 KiB buffer, decoded header, dirty/pinned flags. -/
structure Page where
  data : Buf
  header : PageHeader
  dirty : Bool
  is_pinned : Bool

/-- A zeroed page object (`memset(data_, 0, PAGE_SIZE)`, zero header). -/
def zeroPage : Page where
  data := fun _ => 0
  header := ⟨0, 0, 0, 0, 0, 0, 0, 0, 0⟩
  dirty := false
  is_pinned := false

/-- `serialize_to_buffer`: write the header into the buffer, finalize the
checksum, mark dirty. -/
def serialize_to_buffer (p : Page) : Page :=
  { p with data := finalize_page_checksum (serialize_header p.header p.data), dirty := true }

/-- `init_header(page_id, type)`: fresh header (`upper = 4096`,
`lower = sizeof(PageHeader) = 30`, zero keys), serialized and finalized
(the source finalizes a second time after `serialize_to_buffer`; the second
pass recomputes the same hash). -/
def init_header (p : Page) (page_id ptype : Nat) : Page :=
  let p1 := serialize_to_buffer { p with header :=
    { checksum := 0, magic := 0x50414745, version := 1, page_type := ptype,
      lsn := 0, page_id := page_id, upper_ptr := 4096, lower_ptr := 30, key_count := 0 } }
  { p1 with data := finalize_page_checksum p1.data }

/-- `is_leaf`: `page_type == LEAF_PAGE` (= 2). -/
def Page.leafq (p : Page) : Bool := p.header.page_type == 2

/-- `get_free_space() = upper_ptr - lower_ptr` (`uint16` arithmetic). -/
def get_free_space (p : Page) : Nat := u16sub p.header.upper_ptr p.header.lower_ptr

/-- `deserialize_from_buffer`: reject on checksum mismatch before touching
the header, then decode the header and check the magic tag. -/
def deserialize_from_buffer (p : Page) : Bool × Page :=
  if read_u32_le p.data 0 = simple_checksum (shiftBuf p.data 4) 4092 then
    let p1 := { p with header := deserialize_header p.data }
    (p1.header.magic == 0x50414745, p1)
  else (false, p)

/-- `insert_item(item, item_size) -> (slot index or failure, page)`:
check `free_space < sizeof(SlotEntry) + item_size` and fail without any
mutation, else append the record below `upper_ptr`, write the new slot
`{offset, length}` at `lower_ptr`, bump `lower_ptr`/`key_count`, and
re-serialize the header.  All pointer arithmetic is `uint16`. -/
def insert_item (p : Page) (item : List Nat) (item_size : Nat) : Option Nat × Page :=
  let required_space := (8 + item_size) % 65536
  if get_free_space p < required_space then (none, p)
  else
    let slot_idx := p.header.key_count
    let upper' := u16sub p.header.upper_ptr item_size
    let d1 := memcpyBuf p.data upper' item item_size
    let d2 := write_u32_le d1 p.header.lower_ptr upper'
    let d3 := write_u32_le d2 (p.header.lower_ptr + 4) item_size
    let h' := { p.header with
      upper_ptr := upper',
      lower_ptr := (p.header.lower_ptr + 8) % 65536,
      key_count := (p.header.key_count + 1) % 65536 }
    (some slot_idx, serialize_to_buffer { p with data := d3, header := h' })

/-- `insert_leaf_entry(key, value)`. -/
def insert_leaf_entry (p : Page) (key value : Int) : Option Nat × Page :=
  insert_item p (leafNodeBytes ⟨key, value⟩) 8

/-- `insert_internal_entry(key, child_page_id)`. -/
def insert_internal_entry (p : Page) (key : Int) (child : Nat) : Option Nat × Page :=
  insert_item p (internalNodeBytes ⟨key, child⟩) 8

/-- `get_leaf_entry(slot_idx)`: bounds- and type-check, read the slot's
offset, copy the 8-byte record out of the data area. -/
def get_leaf_entry (p : Page) (slot_idx : Nat) : Option LeafNode :=
  if slot_idx < p.header.key_count ∧ p.leafq then
    let off := read_u32_le p.data (30 + slot_idx * 8)
    some ⟨int32OfU32 (read_u32_le p.data off), int32OfU32 (read_u32_le p.data (off + 4))⟩
  else none

/-- `get_internal_entry(slot_idx)`. -/
def get_internal_entry (p : Page) (slot_idx : Nat) : Option InternalNode :=
  if slot_idx < p.header.key_count ∧ ¬p.leafq then
    let off := read_u32_le p.data (30 + slot_idx * 8)
    some ⟨int32OfU32 (read_u32_le p.data off), read_u32_le p.data (off + 4)⟩
  else none

/-- `delete_item(slot_idx)`: logical delete — zero the slot's `length`
field in the buffer and re-serialize the header. -/
def delete_item (p : Page) (slot_idx : Nat) : Bool × Page :=
  if slot_idx < p.header.key_count then
    (true, serialize_to_buffer { p with data := write_u32_le p.data (30 + slot_idx * 8 + 4) 0 })
  else (false, p)

/-- The key at the midpoint probed by `search_key`: the leaf or internal
record read through the slot directory (`none` when the getter fails). -/
def key_at (p : Page) (i : Nat) : Option Int :=
  if p.leafq then (get_leaf_entry p i).map LeafNode.key
  else (get_internal_entry p i).map InternalNode.key

/-- The binary-search loop of `search_key` (`left`, `right`, `result` are
C `int`s; the loop breaks when a getter fails).  The interval
`[left, right]` strictly shrinks every iteration, so the structural fuel
passed by `search_key` (`key_count + 1`) is never exhausted. -/
def searchGo (p : Page) (key : Int) : Nat → Int → Int → Int → Int
  | 0, _, _, result => result
  | fuel + 1, left, right, result =>
    if left ≤ right then
      let mid := left + (right - left) / 2
      match key_at p mid.toNat with
      | none => result
      | some mid_key =>
        if mid_key = key then mid
        else if mid_key < key then searchGo p key fuel (mid + 1) right result
        else searchGo p key fuel left (mid - 1) mid
    else result

/-- `search_key(key)`: binary search assuming sorted slots; returns the
matching index, else the first index with key `>` target, else `-1`. -/
def search_key (p : Page) (key : Int) : Int :=
  searchGo p key (p.header.key_count + 1) 0 ((p.header.key_count : Int) - 1) (-1)

/-- The `compact()` pass that collects `{offset, length}` of the valid
(non-tombstoned) slots, truncated into `pair<uint16_t, uint16_t>`. -/
def validItems (p : Page) : List (Nat × Nat) :=
  (List.range p.header.key_count).filterMap fun i =>
    if 0 < read_u32_le p.data (30 + i * 8 + 4) then
      some (read_u32_le p.data (30 + i * 8) % 65536, read_u32_le p.data (30 + i * 8 + 4) % 65536)
    else none

/-- One `compact()` loop iteration (accumulator: buffer, `new_upper`, loop
index `i`): lower `new_upper` by the record length, `memmove` the record
bytes when they actually move, rewrite slot `i`'s offset (the source leaves
the slot's `length` field untouched here). -/
def compactStep (acc : Buf × Nat × Nat) (it : Nat × Nat) : Buf × Nat × Nat :=
  let nu := u16sub acc.2.1 it.2
  let d1 := if it.1 ≠ nu then moveBytes acc.1 nu it.1 it.2 else acc.1
  (write_u32_le d1 (30 + acc.2.2 * 8) nu, nu, acc.2.2 + 1)

/-- `compact()`: repack all valid records below `PAGE_SIZE`, recompute
`upper_ptr`, `key_count`, `lower_ptr`, and re-serialize. -/
def compact (p : Page) : Page :=
  let valid := validItems p
  let folded := valid.foldl compactStep (p.data, 4096, 0)
  let h' := { p.header with
    upper_ptr := folded.2.1,
    key_count := valid.length % 65536,
    lower_ptr := (30 + valid.length * 8) % 65536 }
  serialize_to_buffer { p with data := folded.1, header := h' }

/-! ### Buffer read/write lemmas -/

theorem writeByte_at (b : Buf) (i v : Nat) : writeByte b i v i = v % 256 := by
  simp [writeByte]

theorem writeByte_out (b : Buf) (i v j : Nat) (h : j ≠ i) : writeByte b i v j = b j := by
  simp [writeByte, h]

theorem write_u16_out (b : Buf) (p v j : Nat) (h : j < p ∨ p + 2 ≤ j) :
    write_u16_le b p v j = b j := by
  unfold write_u16_le
  rw [writeByte_out _ _ _ _ (by omega), writeByte_out _ _ _ _ (by omega)]

theorem write_u32_out (b : Buf) (p v j : Nat) (h : j < p ∨ p + 4 ≤ j) :
    write_u32_le b p v j = b j := by
  unfold write_u32_le
  rw [writeByte_out _ _ _ _ (by omega), writeByte_out _ _ _ _ (by omega),
    writeByte_out _ _ _ _ (by omega), writeByte_out _ _ _ _ (by omega)]

theorem write_u64_out (b : Buf) (p v j : Nat) (h : j < p ∨ p + 8 ≤ j) :
    write_u64_le b p v j = b j := by
  unfold write_u64_le
  rw [write_u32_out _ _ _ _ (by omega), write_u32_out _ _ _ _ (by omega)]

theorem memcpyBuf_out (b : Buf) (off : Nat) (src : List Nat) (n j : Nat)
    (h : j < off ∨ off + n ≤ j) : memcpyBuf b off src n j = b j := by
  simp only [memcpyBuf]
  rw [if_neg (by omega)]

theorem moveBytes_out (b : Buf) (dst src n j : Nat) (h : j < dst ∨ dst + n ≤ j) :
    moveBytes b dst src n j = b j := by
  simp only [moveBytes]
  rw [if_neg (by omega)]

/-- `serialize_header` only writes bytes `[0, 30)`. -/
theorem serialize_header_out (h : PageHeader) (b : Buf) (j : Nat) (hj : 30 ≤ j) :
    serialize_header h b j = b j := by
  unfold serialize_header
  rw [write_u16_out _ _ _ _ (by omega), write_u16_out _ _ _ _ (by omega),
    write_u16_out _ _ _ _ (by omega), write_u32_out _ _ _ _ (by omega),
    write_u64_out _ _ _ _ (by omega), write_u16_out _ _ _ _ (by omega),
    write_u16_out _ _ _ _ (by omega), write_u32_out _ _ _ _ (by omega),
    write_u32_out _ _ _ _ (by omega)]

/-- `finalize_page_checksum` only writes bytes `[0, 4)`. -/
theorem finalize_out (b : Buf) (j : Nat) (hj : 4 ≤ j) :
    finalize_page_checksum b j = b j := by
  unfold finalize_page_checksum
  rw [write_u32_out _ _ _ _ (by omega)]

theorem read_u16_congr (b1 b2 : Buf) (p : Nat) (h : ∀ j, p ≤ j → j < p + 2 → b1 j = b2 j) :
    read_u16_le b1 p = read_u16_le b2 p := by
  unfold read_u16_le
  rw [h p (by omega) (by omega), h (p + 1) (by omega) (by omega)]

theorem read_u32_congr (b1 b2 : Buf) (p : Nat) (h : ∀ j, p ≤ j → j < p + 4 → b1 j = b2 j) :
    read_u32_le b1 p = read_u32_le b2 p := by
  unfold read_u32_le
  rw [h p (by omega) (by omega), h (p + 1) (by omega) (by omega),
    h (p + 2) (by omega) (by omega), h (p + 3) (by omega) (by omega)]

theorem write_u32_byte0 (b : Buf) (p v : Nat) : write_u32_le b p v p = v % 256 := by
  unfold write_u32_le
  rw [writeByte_out _ _ _ _ (by omega), writeByte_out _ _ _ _ (by omega),
    writeByte_out _ _ _ _ (by omega), writeByte_at]

theorem write_u32_byte1 (b : Buf) (p v : Nat) : write_u32_le b p v (p + 1) = v / 256 % 256 := by
  unfold write_u32_le
  rw [writeByte_out _ _ _ _ (by omega), writeByte_out _ _ _ _ (by omega), writeByte_at]

theorem write_u32_byte2 (b : Buf) (p v : Nat) : write_u32_le b p v (p + 2) = v / 65536 % 256 := by
  unfold write_u32_le
  rw [writeByte_out _ _ _ _ (by omega), writeByte_at]

theorem write_u32_byte3 (b : Buf) (p v : Nat) :
    write_u32_le b p v (p + 3) = v / 16777216 % 256 := by
  unfold write_u32_le
  rw [writeByte_at]

theorem read_u32_write_u32 (b : Buf) (p v : Nat) :
    read_u32_le (write_u32_le b p v) p = v % 4294967296 := by
  unfold read_u32_le
  rw [write_u32_byte0, write_u32_byte1, write_u32_byte2, write_u32_byte3]
  omega

theorem read_u16_write_u16 (b : Buf) (p v : Nat) :
    read_u16_le (write_u16_le b p v) p = v % 65536 := by
  unfold read_u16_le write_u16_le
  rw [writeByte_at]
  rw [writeByte_out _ _ _ _ (by omega), writeByte_at]
  omega

theorem read_u64_congr (b1 b2 : Buf) (p : Nat) (h : ∀ j, p ≤ j → j < p + 8 → b1 j = b2 j) :
    read_u64_le b1 p = read_u64_le b2 p := by
  unfold read_u64_le
  rw [read_u32_congr b1 b2 p (fun j h1 h2 => h j (by omega) (by omega)),
    read_u32_congr b1 b2 (p + 4) (fun j h1 h2 => h j (by omega) (by omega))]

theorem read_u64_write_u64 (b : Buf) (p v : Nat) :
    read_u64_le (write_u64_le b p v) p = v % 18446744073709551616 := by
  unfold read_u64_le write_u64_le
  rw [read_u32_congr _ (write_u32_le b p (v % 4294967296)) p
    (fun j h1 h2 => write_u32_out _ _ _ _ (by omega))]
  rw [read_u32_write_u32, read_u32_write_u32]
  omega

/-- Round trip for every header field: `deserialize(serialize(h)) = h`
whenever the fields fit their declared widths. -/
theorem deserialize_serialize_header (b : Buf)
    (c m ve pt ls pi up lo kc : Nat)
    (h1 : c < 4294967296) (h2 : m < 4294967296)
    (h3 : ve < 65536) (h4 : pt < 65536)
    (h5 : ls < 18446744073709551616) (h6 : pi < 4294967296)
    (h7 : up < 65536) (h8 : lo < 65536) (h9 : kc < 65536) :
    deserialize_header (serialize_header ⟨c, m, ve, pt, ls, pi, up, lo, kc⟩ b) =
      ⟨c, m, ve, pt, ls, pi, up, lo, kc⟩ := by
  have ec : read_u32_le (serialize_header ⟨c, m, ve, pt, ls, pi, up, lo, kc⟩ b) 0 = c := by
    simp only [serialize_header]
    rw [read_u32_congr _ (write_u32_le b 0 c) 0 (fun j hj1 hj2 => by
      rw [write_u16_out _ _ _ _ (by omega), write_u16_out _ _ _ _ (by omega),
        write_u16_out _ _ _ _ (by omega), write_u32_out _ _ _ _ (by omega),
        write_u64_out _ _ _ _ (by omega), write_u16_out _ _ _ _ (by omega),
        write_u16_out _ _ _ _ (by omega), write_u32_out _ _ _ _ (by omega)])]
    rw [read_u32_write_u32]; omega
  have em : read_u32_le (serialize_header ⟨c, m, ve, pt, ls, pi, up, lo, kc⟩ b) 4 = m := by
    simp only [serialize_header]
    rw [read_u32_congr _ (write_u32_le (write_u32_le b 0 c) 4 m) 4 (fun j hj1 hj2 => by
      rw [write_u16_out _ _ _ _ (by omega), write_u16_out _ _ _ _ (by omega),
        write_u16_out _ _ _ _ (by omega), write_u32_out _ _ _ _ (by omega),
        write_u64_out _ _ _ _ (by omega), write_u16_out _ _ _ _ (by omega),
        write_u16_out _ _ _ _ (by omega)])]
    rw [read_u32_write_u32]; omega
  have eve : read_u16_le (serialize_header ⟨c, m, ve, pt, ls, pi, up, lo, kc⟩ b) 8 = ve := by
    simp only [serialize_header]
    rw [read_u16_congr _ (write_u16_le (write_u32_le (write_u32_le b 0 c) 4 m) 8 ve) 8
      (fun j hj1 hj2 => by
        rw [write_u16_out _ _ _ _ (by omega), write_u16_out _ _ _ _ (by omega),
          write_u16_out _ _ _ _ (by omega), write_u32_out _ _ _ _ (by omega),
          write_u64_out _ _ _ _ (by omega), write_u16_out _ _ _ _ (by omega)])]
    rw [read_u16_write_u16]; omega
  have ept : read_u16_le (serialize_header ⟨c, m, ve, pt, ls, pi, up, lo, kc⟩ b) 10 = pt := by
    simp only [serialize_header]
    rw [read_u16_congr _
      (write_u16_le (write_u16_le (write_u32_le (write_u32_le b 0 c) 4 m) 8 ve) 10 pt) 10
      (fun j hj1 hj2 => by
        rw [write_u16_out _ _ _ _ (by omega), write_u16_out _ _ _ _ (by omega),
          write_u16_out _ _ _ _ (by omega), write_u32_out _ _ _ _ (by omega),
          write_u64_out _ _ _ _ (by omega)])]
    rw [read_u16_write_u16]; omega
  have els : read_u64_le (serialize_header ⟨c, m, ve, pt, ls, pi, up, lo, kc⟩ b) 12 = ls := by
    simp only [serialize_header]
    rw [read_u64_congr _
      (write_u64_le (write_u16_le (write_u16_le (write_u32_le (write_u32_le b 0 c) 4 m) 8 ve)
        10 pt) 12 ls) 12
      (fun j hj1 hj2 => by
        rw [write_u16_out _ _ _ _ (by omega), write_u16_out _ _ _ _ (by omega),
          write_u16_out _ _ _ _ (by omega), write_u32_out _ _ _ _ (by omega)])]
    rw [read_u64_write_u64]; omega
  have epi : read_u32_le (serialize_header ⟨c, m, ve, pt, ls, pi, up, lo, kc⟩ b) 20 = pi := by
    simp only [serialize_header]
    rw [read_u32_congr _
      (write_u32_le (write_u64_le (write_u16_le (write_u16_le (write_u32_le (write_u32_le b 0 c)
        4 m) 8 ve) 10 pt) 12 ls) 20 pi) 20
      (fun j hj1 hj2 => by
        rw [write_u16_out _ _ _ _ (by omega), write_u16_out _ _ _ _ (by omega),
          write_u16_out _ _ _ _ (by omega)])]
    rw [read_u32_write_u32]; omega
  have eup : read_u16_le (serialize_header ⟨c, m, ve, pt, ls, pi, up, lo, kc⟩ b) 24 = up := by
    simp only [serialize_header]
    rw [read_u16_congr _
      (write_u16_le (write_u32_le (write_u64_le (write_u16_le (write_u16_le (write_u32_le
        (write_u32_le b 0 c) 4 m) 8 ve) 10 pt) 12 ls) 20 pi) 24 up) 24
      (fun j hj1 hj2 => by
        rw [write_u16_out _ _ _ _ (by omega), write_u16_out _ _ _ _ (by omega)])]
    rw [read_u16_write_u16]; omega
  have elo : read_u16_le (serialize_header ⟨c, m, ve, pt, ls, pi, up, lo, kc⟩ b) 26 = lo := by
    simp only [serialize_header]
    rw [read_u16_congr _
      (write_u16_le (write_u16_le (write_u32_le (write_u64_le (write_u16_le (write_u16_le
        (write_u32_le (write_u32_le b 0 c) 4 m) 8 ve) 10 pt) 12 ls) 20 pi) 24 up) 26 lo) 26
      (fun j hj1 hj2 => by rw [write_u16_out _ _ _ _ (by omega)])]
    rw [read_u16_write_u16]; omega
  have ekc : read_u16_le (serialize_header ⟨c, m, ve, pt, ls, pi, up, lo, kc⟩ b) 28 = kc := by
    simp only [serialize_header]
    rw [read_u16_write_u16]; omega
  unfold deserialize_header
  rw [ec, em, eve, ept, els, epi, eup, elo, ekc]

/-- **C9**: for every `PageHeader` whose fields fit their declared widths,
`serialize_header` followed by `deserialize_header` on the same buffer
reproduces every field (checksum, magic, version, page_type, lsn, page_id,
upper_ptr, lower_ptr, key_count) identically; the fixed little-endian byte
offsets (0, 4, 8, 10, 12, 20, 24, 26, 28) are those of the embedding of the
codec itself, with no dependence on host byte order. -/
theorem claim_C9_header_roundtrip (h : PageHeader) (b : Buf)
    (h1 : h.checksum < 4294967296) (h2 : h.magic < 4294967296)
    (h3 : h.version < 65536) (h4 : h.page_type < 65536)
    (h5 : h.lsn < 18446744073709551616) (h6 : h.page_id < 4294967296)
    (h7 : h.upper_ptr < 65536) (h8 : h.lower_ptr < 65536) (h9 : h.key_count < 65536) :
    deserialize_header (serialize_header h b) = h := by
  obtain ⟨c, m, ve, pt, ls, pi, up, lo, kc⟩ := h
  exact deserialize_serialize_header b c m ve pt ls pi up lo kc h1 h2 h3 h4 h5 h6 h7 h8 h9

/-- Witness for C9 at a concrete header and the all-zero buffer. -/
theorem claim_C9_witness :
    deserialize_header (serialize_header ⟨7, 0x50414745, 1, 2, 99, 42, 4096, 30, 5⟩
      (fun _ => 0)) = ⟨7, 0x50414745, 1, 2, 99, 42, 4096, 30, 5⟩ :=
  claim_C9_header_roundtrip ⟨7, 0x50414745, 1, 2, 99, 42, 4096, 30, 5⟩ (fun _ => 0)
    (by decide) (by decide) (by decide) (by decide) (by decide) (by decide)
    (by decide) (by decide) (by decide)

/-! ### Checksum lemmas -/

theorem csGo_congr (d1 d2 : Buf) :
    ∀ (n s i : Nat), (∀ k, i ≤ k → k < i + n → d1 k = d2 k) →
      csGo d1 s i n = csGo d2 s i n := by
  intro n
  induction n with
  | zero => intro s i _; rfl
  | succ n ih =>
    intro s i h
    simp only [csGo]
    rw [h i (by omega) (by omega)]
    exact ih _ _ (fun k h1 h2 => h k (by omega) (by omega))

theorem csGo_lt (d : Buf) : ∀ (n s i : Nat), s < 4294967296 → csGo d s i n < 4294967296 := by
  intro n
  induction n with
  | zero => intro s i hs; exact hs
  | succ n ih =>
    intro s i _
    simp only [csGo]
    exact ih _ _ (Nat.mod_lt _ (by omega))

/-- Multiplication by the FNV prime is injective modulo `2^32`. -/
theorem mulPrime_mod_inj (a b : Nat) (ha : a < 4294967296) (hb : b < 4294967296)
    (hne : a ≠ b) : a * 16777619 % 4294967296 ≠ b * 16777619 % 4294967296 := by
  intro h
  have hco : Nat.gcd 4294967296 16777619 = 1 := by norm_num
  have h2 : a % 4294967296 = b % 4294967296 :=
    (Nat.ModEq.cancel_right_of_coprime hco h)
  rw [Nat.mod_eq_of_lt ha, Nat.mod_eq_of_lt hb] at h2
  exact hne h2

theorem xor_lt_232 (s c : Nat) (hs : s < 4294967296) (hc : c < 4294967296) :
    s ^^^ c < 4294967296 := by
  have : (4294967296 : Nat) = 2 ^ 32 := by norm_num
  rw [this] at *
  exact Nat.xor_lt_two_pow hs hc

/-- `fnvStep` with a fixed byte is injective in the running state. -/
theorem fnvStep_inj_state (s1 s2 c : Nat) (h1 : s1 < 4294967296) (h2 : s2 < 4294967296)
    (hc : c < 4294967296) (hne : s1 ≠ s2) : fnvStep s1 c ≠ fnvStep s2 c := by
  unfold fnvStep
  apply mulPrime_mod_inj _ _ (xor_lt_232 _ _ h1 hc) (xor_lt_232 _ _ h2 hc)
  intro h
  apply hne
  have := congrArg (· ^^^ c) h
  simpa [Nat.xor_cancel_right] using this

/-- `fnvStep` on a fixed state is injective in the byte. -/
theorem fnvStep_inj_byte (s c1 c2 : Nat) (hs : s < 4294967296) (hc1 : c1 < 4294967296)
    (hc2 : c2 < 4294967296) (hne : c1 ≠ c2) : fnvStep s c1 ≠ fnvStep s c2 := by
  unfold fnvStep
  apply mulPrime_mod_inj _ _ (xor_lt_232 _ _ hs hc1) (xor_lt_232 _ _ hs hc2)
  intro h
  apply hne
  have := congrArg (s ^^^ ·) h
  simpa using this

/-- Distinct states stay distinct through the rest of the hash, as long as
the hashed bytes are genuine bytes. -/
theorem csGo_inj (d : Buf) :
    ∀ (n s1 s2 i : Nat), s1 < 4294967296 → s2 < 4294967296 → s1 ≠ s2 →
      (∀ k, i ≤ k → k < i + n → d k < 256) → csGo d s1 i n ≠ csGo d s2 i n := by
  intro n
  induction n with
  | zero => intro s1 s2 i _ _ hne _; exact hne
  | succ n ih =>
    intro s1 s2 i h1 h2 hne hbytes
    simp only [csGo]
    apply ih _ _ _ (Nat.mod_lt _ (by omega)) (Nat.mod_lt _ (by omega))
    · exact fnvStep_inj_state _ _ _ h1 h2
        (by have := hbytes i (by omega) (by omega); omega) hne
    · exact fun k hk1 hk2 => hbytes k (by omega) (by omega)

theorem csGo_succ (d : Buf) (s i n : Nat) :
    csGo d s i (n + 1) = csGo d (fnvStep s (d i)) (i + 1) n := rfl

theorem csGo_append (d : Buf) :
    ∀ (m n s i : Nat), csGo d s i (m + n) = csGo d (csGo d s i m) (i + m) n := by
  intro m
  induction m with
  | zero => intro n s i; simp [csGo]
  | succ m ih =>
    intro n s i
    have e : m + 1 + n = (m + n) + 1 := by omega
    rw [e]
    simp only [csGo]
    rw [ih]
    have e2 : i + 1 + m = i + (m + 1) := by omega
    rw [e2]

/-- A buffer produced by `finalize_page_checksum` satisfies the
"stored checksum = recomputed checksum" equation. -/
theorem finalize_is_finalized (b : Buf) :
    read_u32_le (finalize_page_checksum b) 0 =
      simple_checksum (shiftBuf (finalize_page_checksum b) 4) 4092 := by
  unfold finalize_page_checksum
  rw [read_u32_write_u32]
  rw [Nat.mod_eq_of_lt (show simple_checksum (shiftBuf b 4) 4092 < 4294967296 from
    csGo_lt _ _ _ _ (by norm_num))]
  unfold simple_checksum
  apply csGo_congr
  intro k _ _
  show shiftBuf b 4 k = shiftBuf (write_u32_le b 0 _) 4 k
  unfold shiftBuf
  rw [write_u32_out _ _ _ _ (by omega)]

/-- **C8**: for every 4096-byte page buffer (bytes `< 256`) whose checksum
field has been finalized (`read_u32_le b 0` equals the checksum of bytes
`[4, 4096)`), changing the single byte at any offset `j` in `4..4095` to a
different byte value makes `verify_page_checksum` return `false`, and
`deserialize_from_buffer` on any page holding the corrupted buffer refuses
it (its checksum mismatch branch returns `false` before decoding). -/
theorem claim_C8_checksum_flip_detected (b : Buf) (j v : Nat) (p : Page)
    (hb : ∀ i, i < 4096 → b i < 256)
    (hj4 : 4 ≤ j) (hj : j < 4096) (hv : v < 256) (hne : v ≠ b j)
    (hfin : read_u32_le b 0 = simple_checksum (shiftBuf b 4) 4092)
    (hp : p.data = writeByte b j v) :
    verify_page_checksum (writeByte b j v) = false ∧
      (deserialize_from_buffer p).1 = false := by
  have hstored : read_u32_le (writeByte b j v) 0 = read_u32_le b 0 :=
    read_u32_congr _ _ 0 (fun k hk1 hk2 => writeByte_out _ _ _ _ (by omega))
  have hwb : writeByte b j v j = v := by rw [writeByte_at]; omega
  -- the two checksums differ: split the hash at the flipped byte
  have hcs : simple_checksum (shiftBuf (writeByte b j v) 4) 4092 ≠
      simple_checksum (shiftBuf b 4) 4092 := by
    have hsplit : (4092 : Nat) = (j - 4) + ((4091 - (j - 4)) + 1) := by omega
    unfold simple_checksum
    rw [hsplit]
    rw [csGo_append (shiftBuf (writeByte b j v) 4) (j - 4) ((4091 - (j - 4)) + 1) 2166136261 0]
    rw [csGo_append (shiftBuf b 4) (j - 4) ((4091 - (j - 4)) + 1) 2166136261 0]
    -- the prefixes (bytes 4 .. j-1) agree
    have hpre : csGo (shiftBuf (writeByte b j v) 4) 2166136261 0 (j - 4) =
        csGo (shiftBuf b 4) 2166136261 0 (j - 4) := by
      apply csGo_congr
      intro k hk1 hk2
      unfold shiftBuf
      rw [writeByte_out _ _ _ _ (by omega)]
    rw [hpre]
    -- one step at the flipped byte, then the identical suffix
    rw [csGo_succ (shiftBuf (writeByte b j v) 4) _ (0 + (j - 4)) (4091 - (j - 4))]
    rw [csGo_succ (shiftBuf b 4) _ (0 + (j - 4)) (4091 - (j - 4))]
    have hd1 : shiftBuf (writeByte b j v) 4 (0 + (j - 4)) = v := by
      unfold shiftBuf
      have e : 0 + (j - 4) + 4 = j := by omega
      rw [e, hwb]
    have hd2 : shiftBuf b 4 (0 + (j - 4)) = b j := by
      unfold shiftBuf
      have e : 0 + (j - 4) + 4 = j := by omega
      rw [e]
    rw [hd1, hd2]
    have hsuf : csGo (shiftBuf (writeByte b j v) 4)
        (fnvStep (csGo (shiftBuf b 4) 2166136261 0 (j - 4)) v) (0 + (j - 4) + 1)
        (4091 - (j - 4)) =
        csGo (shiftBuf b 4)
        (fnvStep (csGo (shiftBuf b 4) 2166136261 0 (j - 4)) v) (0 + (j - 4) + 1)
        (4091 - (j - 4)) := by
      apply csGo_congr
      intro k hk1 hk2
      unfold shiftBuf
      rw [writeByte_out _ _ _ _ (by omega)]
    rw [hsuf]
    apply csGo_inj
    · exact Nat.mod_lt _ (by omega)
    · exact Nat.mod_lt _ (by omega)
    · have hseed : csGo (shiftBuf b 4) 2166136261 0 (j - 4) < 4294967296 :=
        csGo_lt _ _ _ _ (by norm_num)
      exact fnvStep_inj_byte _ _ _ hseed (by omega) (by
          have := hb j hj; omega) (by rw [ne_eq]; intro h; exact hne h)
    · intro k hk1 hk2
      unfold shiftBuf
      exact hb _ (by omega)
  constructor
  · unfold verify_page_checksum
    rw [hstored, hfin]
    exact beq_eq_false_iff_ne.mpr (Ne.symm hcs)
  · unfold deserialize_from_buffer
    rw [hp, hstored, hfin]
    rw [if_neg (Ne.symm hcs)]

/-- `uint16` subtraction is plain subtraction on in-range operands. -/
theorem u16sub_of_le (a b : Nat) (hba : b ≤ a) (ha : a < 65536) : u16sub a b = a - b := by
  unfold u16sub
  omega

/-- **C6**: on a sane page (`lower_ptr ≤ upper_ptr ≤ 4096`, `key_count`
below the `uint16` ceiling) and for a record size with `s + 8 < 2^16` (so
the `uint16` size arithmetic cannot wrap), `insert_item` succeeds exactly
when `free_space() ≥ s + 8`; on success `free_space()` shrinks by exactly
`s + 8` (`upper_ptr` falls by `s`, `lower_ptr` rises by 8, `key_count`
rises by 1); on failure the page — buffer bytes and header alike — is
returned untouched. -/
theorem claim_C6_insert_free_space (p : Page) (item : List Nat) (s : Nat)
    (hlu : p.header.lower_ptr ≤ p.header.upper_ptr)
    (hup : p.header.upper_ptr ≤ 4096)
    (hkc : p.header.key_count < 65535)
    (hs : s + 8 < 65536) :
    ((insert_item p item s).1.isSome ↔ s + 8 ≤ get_free_space p) ∧
    ((insert_item p item s).1.isSome →
      get_free_space (insert_item p item s).2 = get_free_space p - (s + 8) ∧
      (insert_item p item s).2.header.upper_ptr = p.header.upper_ptr - s ∧
      (insert_item p item s).2.header.lower_ptr = p.header.lower_ptr + 8 ∧
      (insert_item p item s).2.header.key_count = p.header.key_count + 1) ∧
    ((insert_item p item s).1 = none → (insert_item p item s).2 = p) := by
  have hfree : get_free_space p = p.header.upper_ptr - p.header.lower_ptr :=
    u16sub_of_le _ _ hlu (by omega)
  have hreq : (8 + s) % 65536 = 8 + s := Nat.mod_eq_of_lt (by omega)
  unfold insert_item
  rw [hreq]
  by_cases hg : get_free_space p < 8 + s
  · rw [if_pos hg]
    refine ⟨by simp; omega, by simp, fun _ => rfl⟩
  · rw [if_neg hg]
    have hsu : s ≤ p.header.upper_ptr := by omega
    have hupper : u16sub p.header.upper_ptr s = p.header.upper_ptr - s :=
      u16sub_of_le _ _ (by omega) (by omega)
    refine ⟨by simp; omega, fun _ => ?_, by simp⟩
    simp only [serialize_to_buffer]
    refine ⟨?_, ?_, ?_, ?_⟩
    · show u16sub (u16sub p.header.upper_ptr s) ((p.header.lower_ptr + 8) % 65536) = _
      rw [hupper, Nat.mod_eq_of_lt (by omega), u16sub_of_le _ _ (by omega) (by omega)]
      omega
    · exact hupper
    · exact Nat.mod_eq_of_lt (by omega)
    · exact Nat.mod_eq_of_lt (by omega)

/-- Witness for C6: inserting an 8-byte leaf record into a freshly
initialized page. -/
theorem claim_C6_witness :
    ((insert_item (init_header zeroPage 1 2) (leafNodeBytes ⟨10, 97⟩) 8).1.isSome ↔
      8 + 8 ≤ get_free_space (init_header zeroPage 1 2)) ∧
    ((insert_item (init_header zeroPage 1 2) (leafNodeBytes ⟨10, 97⟩) 8).1.isSome →
      get_free_space (insert_item (init_header zeroPage 1 2) (leafNodeBytes ⟨10, 97⟩) 8).2 =
        get_free_space (init_header zeroPage 1 2) - (8 + 8) ∧
      (insert_item (init_header zeroPage 1 2)
        (leafNodeBytes ⟨10, 97⟩) 8).2.header.upper_ptr =
        (init_header zeroPage 1 2).header.upper_ptr - 8 ∧
      (insert_item (init_header zeroPage 1 2)
        (leafNodeBytes ⟨10, 97⟩) 8).2.header.lower_ptr =
        (init_header zeroPage 1 2).header.lower_ptr + 8 ∧
      (insert_item (init_header zeroPage 1 2)
        (leafNodeBytes ⟨10, 97⟩) 8).2.header.key_count =
        (init_header zeroPage 1 2).header.key_count + 1) ∧
    ((insert_item (init_header zeroPage 1 2) (leafNodeBytes ⟨10, 97⟩) 8).1 = none →
      (insert_item (init_header zeroPage 1 2) (leafNodeBytes ⟨10, 97⟩) 8).2 =
        init_header zeroPage 1 2) :=
  claim_C6_insert_free_space (init_header zeroPage 1 2) (leafNodeBytes ⟨10, 97⟩) 8
    (by decide) (by decide) (by decide) (by decide)

/-- Witness for C8: the finalized image of the all-zero buffer, with byte 10
flipped from 0 to 7. -/
theorem claim_C8_witness :
    verify_page_checksum (writeByte (finalize_page_checksum (fun _ => 0)) 10 7) = false ∧
      (deserialize_from_buffer { zeroPage with
        data := writeByte (finalize_page_checksum (fun _ => 0)) 10 7 }).1 = false := by
  have hb : ∀ i, i < 4096 → finalize_page_checksum (fun _ => 0) i < 256 := by
    intro i hi
    by_cases h4 : 4 ≤ i
    · rw [finalize_out _ _ h4]; omega
    · unfold finalize_page_checksum
      interval_cases i
      · rw [write_u32_byte0]; exact Nat.mod_lt _ (by omega)
      · rw [show (1 : Nat) = 0 + 1 from rfl, write_u32_byte1]; exact Nat.mod_lt _ (by omega)
      · rw [show (2 : Nat) = 0 + 2 from rfl, write_u32_byte2]; exact Nat.mod_lt _ (by omega)
      · rw [show (3 : Nat) = 0 + 3 from rfl, write_u32_byte3]; exact Nat.mod_lt _ (by omega)
  have h10 : finalize_page_checksum (fun _ => 0) 10 = 0 := by
    rw [finalize_out _ _ (by omega)]
  exact claim_C8_checksum_flip_detected (finalize_page_checksum (fun _ => 0)) 10 7 _
    hb (by omega) (by omega) (by omega) (by rw [h10]; omega)
    (finalize_is_finalized _) rfl

/-- The spec's Scenario B page: a fresh leaf page after
`insert_leaf_entry(10,·)`, `insert_leaf_entry(20,·)`, `insert_leaf_entry(5,·)`. -/
def scenarioB : Page :=
  (insert_leaf_entry (insert_leaf_entry (insert_leaf_entry
    (init_header zeroPage 1 2) 10 97).2 20 98).2 5 99).2

/-- **C1** (the code contradicts the claim): `insert_item` assigns
`slot_idx = key_count` and appends, never consulting an insertion point, so
after inserting leaf keys 10, 20, 5 (all three inserts succeed) the slot
directory reads `10, 20, 5` — not ascending — and `search_key(20)`
returns directory index 1, not 2; `search_key(5)` happens to return 0.
(`search_key`'s own contract requires sorted slots, and the sibling source
file's `find_insertion_point`/slot-shifting insert shows the intended
sorted-insert design.) -/
theorem claim_C1_insert_appends_unsorted :
    (insert_leaf_entry (init_header zeroPage 1 2) 10 97).1 = some 0 ∧
    (insert_leaf_entry (insert_leaf_entry (init_header zeroPage 1 2) 10 97).2 20 98).1 =
      some 1 ∧
    (insert_leaf_entry (insert_leaf_entry (insert_leaf_entry
      (init_header zeroPage 1 2) 10 97).2 20 98).2 5 99).1 = some 2 ∧
    scenarioB.header.key_count = 3 ∧
    (get_leaf_entry scenarioB 0).map LeafNode.key = some 10 ∧
    (get_leaf_entry scenarioB 1).map LeafNode.key = some 20 ∧
    (get_leaf_entry scenarioB 2).map LeafNode.key = some 5 ∧
    search_key scenarioB 5 = 0 ∧
    search_key scenarioB 20 = 1 := by
  refine ⟨by decide, by decide, by decide, by decide, by decide, by decide, by decide,
    by decide, by decide⟩

/-! ### The header layout invariant (C7) -/

/-- The `length` field of slot `i`, read from the buffer. -/
def slotLen (p : Page) (i : Nat) : Nat := read_u32_le p.data (30 + i * 8 + 4)

/-- Total bytes the slot directory accounts for in the data area. -/
def slotLenSum (p : Page) : Nat := ((List.range p.header.key_count).map (slotLen p)).sum

/-- Page well-formedness: the directory sits right after the header
(`lower = 30 + 8·key_count`), the layout invariant holds, the recorded
record lengths fit in the gap above `upper_ptr`, and each is a `uint16`
value. -/
def PW (p : Page) : Prop :=
  p.header.lower_ptr = 30 + 8 * p.header.key_count ∧
  p.header.lower_ptr ≤ p.header.upper_ptr ∧
  p.header.upper_ptr ≤ 4096 ∧
  slotLenSum p + p.header.upper_ptr ≤ 4096 ∧
  ∀ i, i < p.header.key_count → slotLen p i < 65536

/-- The page-mutating operations of the slotted page. -/
inductive PageOp where
  | ins (item : List Nat) (size : Nat)
  | del (idx : Nat)
  | comp

/-- Run one operation (results of failed calls are the returned page). -/
def applyOp (p : Page) : PageOp → Page
  | .ins item size => (insert_item p item size).2
  | .del idx => (delete_item p idx).2
  | .comp => compact p

def applyOps (p : Page) : List PageOp → Page
  | [] => p
  | op :: ops => applyOps (applyOp p op) ops

/-- Record sizes below the `uint16` wrap point (`s + 8 < 2^16`): beyond it
the C size arithmetic overflows and the `memcpy` runs out of the buffer. -/
def opSizeOK : PageOp → Bool
  | .ins _ size => size + 8 < 65536
  | _ => true

/-- `serialize_to_buffer` leaves every byte from offset 30 up unchanged. -/
theorem serialize_data_high (p : Page) (j : Nat) (hj : 30 ≤ j) :
    (serialize_to_buffer p).data j = p.data j := by
  show finalize_page_checksum (serialize_header p.header p.data) j = _
  rw [finalize_out _ _ (by omega), serialize_header_out _ _ _ hj]

theorem slotLen_serialize (p : Page) (i : Nat) :
    slotLen (serialize_to_buffer p) i = slotLen p i :=
  read_u32_congr _ _ _ (fun j h1 _ => serialize_data_high _ _ (by omega))

theorem PW_init (p : Page) (pid ptype : Nat) : PW (init_header p pid ptype) := by
  refine ⟨rfl, by show (30:Nat) ≤ 4096; omega, le_refl _, ?_, ?_⟩
  · show slotLenSum _ + 4096 ≤ 4096
    have : slotLenSum (init_header p pid ptype) = 0 := by
      unfold slotLenSum
      show ((List.range 0).map _).sum = 0
      rfl
    omega
  · intro i hi
    rw [show (init_header p pid ptype).header.key_count = 0 from rfl] at hi
    omega

/-- Header fields of a successful `insert_item`. -/
theorem insert_item_header (p : Page) (item : List Nat) (s : Nat)
    (h : ¬ get_free_space p < (8 + s) % 65536) :
    (insert_item p item s).2.header =
      { p.header with
        upper_ptr := u16sub p.header.upper_ptr s,
        lower_ptr := (p.header.lower_ptr + 8) % 65536,
        key_count := (p.header.key_count + 1) % 65536 } := by
  unfold insert_item
  rw [if_neg h]
  rfl

/-- A successful `insert_item` leaves the old directory bytes alone. -/
theorem insert_item_data_low (p : Page) (item : List Nat) (s : Nat)
    (h : ¬ get_free_space p < (8 + s) % 65536)
    (hlu : p.header.lower_ptr ≤ p.header.upper_ptr) (hup : p.header.upper_ptr ≤ 4096)
    (hs : s + 8 < 65536) :
    ∀ j, 30 ≤ j → j < p.header.lower_ptr → (insert_item p item s).2.data j = p.data j := by
  intro j h30 hjl
  have hfree : get_free_space p = p.header.upper_ptr - p.header.lower_ptr :=
    u16sub_of_le _ _ hlu (by omega)
  have hcap : 8 + s ≤ p.header.upper_ptr - p.header.lower_ptr := by
    rw [hfree, Nat.mod_eq_of_lt (by omega)] at h
    omega
  have hupper : u16sub p.header.upper_ptr s = p.header.upper_ptr - s :=
    u16sub_of_le _ _ (by omega) (by omega)
  unfold insert_item
  rw [if_neg h]
  show (serialize_to_buffer _).data j = _
  rw [serialize_data_high _ _ h30]
  show write_u32_le _ (p.header.lower_ptr + 4) s j = _
  rw [write_u32_out _ _ _ _ (by omega), write_u32_out _ _ _ _ (by omega),
    memcpyBuf_out _ _ _ _ _ (by rw [hupper]; omega)]

/-- A successful `insert_item` writes `s` as the new slot's length. -/
theorem insert_item_newslot (p : Page) (item : List Nat) (s : Nat)
    (h : ¬ get_free_space p < (8 + s) % 65536) (h30 : 30 ≤ p.header.lower_ptr) :
    read_u32_le (insert_item p item s).2.data (p.header.lower_ptr + 4) =
      s % 4294967296 := by
  unfold insert_item
  rw [if_neg h]
  show read_u32_le (serialize_to_buffer _).data _ = _
  rw [read_u32_congr _ _ _ (fun j h1 _ => serialize_data_high _ _ (by omega))]
  exact read_u32_write_u32 _ _ _

theorem PW_insert (p : Page) (item : List Nat) (s : Nat) (hpw : PW p)
    (hs : s + 8 < 65536) : PW (insert_item p item s).2 := by
  obtain ⟨hlow, hlu, hup, hsum, hlens⟩ := hpw
  have hkc : p.header.key_count ≤ 508 := by omega
  by_cases hg : get_free_space p < (8 + s) % 65536
  · unfold insert_item
    rw [if_pos hg]
    exact ⟨hlow, hlu, hup, hsum, hlens⟩
  · have hfree : get_free_space p = p.header.upper_ptr - p.header.lower_ptr :=
      u16sub_of_le _ _ hlu (by omega)
    have hcap : 8 + s ≤ p.header.upper_ptr - p.header.lower_ptr := by
      rw [hfree, Nat.mod_eq_of_lt (by omega)] at hg
      omega
    have hupper : u16sub p.header.upper_ptr s = p.header.upper_ptr - s :=
      u16sub_of_le _ _ (by omega) (by omega)
    have hhdr := insert_item_header p item s hg
    have hlow8 : (p.header.lower_ptr + 8) % 65536 = p.header.lower_ptr + 8 :=
      Nat.mod_eq_of_lt (by omega)
    have hkc1 : (p.header.key_count + 1) % 65536 = p.header.key_count + 1 :=
      Nat.mod_eq_of_lt (by omega)
    -- each old slot's length bytes are untouched
    have hold : ∀ i, i < p.header.key_count →
        slotLen (insert_item p item s).2 i = slotLen p i := by
      intro i hi
      exact read_u32_congr _ _ _ (fun j h1 h2 =>
        insert_item_data_low p item s hg hlu hup hs j (by omega) (by omega))
    -- the new slot's length is s
    have hnew : slotLen (insert_item p item s).2 p.header.key_count = s := by
      unfold slotLen
      rw [show 30 + p.header.key_count * 8 + 4 = p.header.lower_ptr + 4 from by omega]
      rw [insert_item_newslot p item s hg (by omega)]
      omega
    have hsum' : slotLenSum (insert_item p item s).2 = slotLenSum p + s := by
      unfold slotLenSum
      rw [hhdr]
      show ((List.range ((p.header.key_count + 1) % 65536)).map _).sum = _
      rw [hkc1, List.range_succ, List.map_append, List.sum_append]
      have e1 : (List.range p.header.key_count).map (slotLen (insert_item p item s).2) =
          (List.range p.header.key_count).map (slotLen p) :=
        List.map_congr_left (fun i hi => hold i (List.mem_range.mp hi))
      rw [e1]
      simp [hnew]
    refine ⟨?_, ?_, ?_, ?_, ?_⟩
    · rw [hhdr]
      show (p.header.lower_ptr + 8) % 65536 = 30 + 8 * ((p.header.key_count + 1) % 65536)
      rw [hlow8, hkc1]; omega
    · rw [hhdr]
      show (p.header.lower_ptr + 8) % 65536 ≤ u16sub p.header.upper_ptr s
      rw [hlow8, hupper]; omega
    · rw [hhdr]
      show u16sub p.header.upper_ptr s ≤ 4096
      rw [hupper]; omega
    · rw [hsum', hhdr]
      show slotLenSum p + s + u16sub p.header.upper_ptr s ≤ 4096
      rw [hupper]; omega
    · intro i hi
      rw [hhdr] at hi
      have hi' : i < (p.header.key_count + 1) % 65536 := hi
      rw [hkc1] at hi'
      rcases Nat.lt_or_ge i p.header.key_count with hlt | hge
      · rw [hold i hlt]; exact hlens i hlt
      · have : i = p.header.key_count := by omega
        rw [this, hnew]; omega

theorem PW_delete (p : Page) (idx : Nat) (hpw : PW p) : PW (delete_item p idx).2 := by
  obtain ⟨hlow, hlu, hup, hsum, hlens⟩ := hpw
  unfold delete_item
  by_cases h : idx < p.header.key_count
  · rw [if_pos h]
    show PW (serialize_to_buffer { p with data := write_u32_le p.data (30 + idx * 8 + 4) 0 })
    have hsl : ∀ i, i < p.header.key_count →
        slotLen (serialize_to_buffer
          { p with data := write_u32_le p.data (30 + idx * 8 + 4) 0 }) i =
          if i = idx then 0 else slotLen p i := by
      intro i hi
      rw [slotLen_serialize]
      by_cases hie : i = idx
      · subst hie
        rw [if_pos rfl]
        show read_u32_le (write_u32_le p.data (30 + i * 8 + 4) 0) (30 + i * 8 + 4) = 0
        rw [read_u32_write_u32]
      · rw [if_neg hie]
        exact read_u32_congr _ _ _ (fun j h1 h2 => write_u32_out _ _ _ _ (by omega))
    refine ⟨hlow, hlu, hup, ?_, ?_⟩
    · show slotLenSum (serialize_to_buffer
        { p with data := write_u32_le p.data (30 + idx * 8 + 4) 0 }) +
        p.header.upper_ptr ≤ 4096
      have : slotLenSum (serialize_to_buffer
          { p with data := write_u32_le p.data (30 + idx * 8 + 4) 0 }) ≤ slotLenSum p := by
        unfold slotLenSum
        apply List.sum_le_sum
        intro i hi
        rw [hsl i (List.mem_range.mp hi)]
        by_cases hie : i = idx
        · rw [if_pos hie]; omega
        · rw [if_neg hie]
      omega
    · intro i hi
      rw [hsl i hi]
      by_cases hie : i = idx
      · rw [if_pos hie]; omega
      · rw [if_neg hie]; exact hlens i hi
  · rw [if_neg h]
    exact ⟨hlow, hlu, hup, hsum, hlens⟩

/-- The `compact` loop: `new_upper` ends at the start value minus the total
record length, and every byte below the repacked data area and outside the
rewritten slot-offset fields is untouched. -/
theorem compactFold (l : List (Nat × Nat)) : ∀ (d : Buf) (u i0 : Nat),
    (l.map Prod.snd).sum ≤ u → u ≤ 65535 →
    (l.foldl compactStep (d, u, i0)).2.1 = u - (l.map Prod.snd).sum ∧
    (∀ j, j + (l.map Prod.snd).sum < u →
      (∀ k, i0 ≤ k → k < i0 + l.length → j < 30 + k * 8 ∨ 30 + k * 8 + 4 ≤ j) →
      (l.foldl compactStep (d, u, i0)).1 j = d j) := by
  induction l with
  | nil =>
    intro d u i0 _ _
    exact ⟨by simp, fun j _ _ => rfl⟩
  | cons hd tl ih =>
    intro d u i0 hsum hu
    obtain ⟨off, len⟩ := hd
    simp only [List.map_cons, List.sum_cons, List.length_cons] at hsum ⊢
    have hnu : u16sub u len = u - len := u16sub_of_le _ _ (by omega) (by omega)
    have hstep : (((off, len) :: tl).foldl compactStep (d, u, i0)) =
        tl.foldl compactStep
          (write_u32_le (if off ≠ u16sub u len then moveBytes d (u16sub u len) off len else d)
            (30 + i0 * 8) (u16sub u len), u16sub u len, i0 + 1) := rfl
    rw [hstep]
    obtain ⟨ih1, ih2⟩ := ih
      (write_u32_le (if off ≠ u16sub u len then moveBytes d (u16sub u len) off len else d)
        (30 + i0 * 8) (u16sub u len))
      (u16sub u len) (i0 + 1) (by rw [hnu]; omega) (by omega)
    refine ⟨by rw [ih1, hnu]; omega, ?_⟩
    intro j hj hk
    rw [ih2 j (by rw [hnu]; omega) (fun k hk1 hk2 => hk k (by omega) (by omega))]
    rw [write_u32_out _ _ _ _ (hk i0 (by omega) (by omega))]
    by_cases hmv : off ≠ u16sub u len
    · rw [if_pos hmv, moveBytes_out _ _ _ _ _ (by rw [hnu]; left; omega)]
    · rw [if_neg hmv]

/-- The lengths collected by the `compact` scan sum to the directory's
total record length (tombstones contribute zero either way). -/
theorem filterValid_sum (p : Page) :
    ∀ (l : List Nat), (∀ i ∈ l, slotLen p i < 65536) →
      (((l.filterMap fun i =>
        if 0 < read_u32_le p.data (30 + i * 8 + 4) then
          some (read_u32_le p.data (30 + i * 8) % 65536,
            read_u32_le p.data (30 + i * 8 + 4) % 65536)
        else none)).map Prod.snd).sum = (l.map (slotLen p)).sum := by
  intro l
  induction l with
  | nil => intro _; rfl
  | cons hd tl ih =>
    intro hmem
    by_cases h : 0 < read_u32_le p.data (30 + hd * 8 + 4)
    · simp only [List.filterMap_cons, if_pos h, List.map_cons, List.sum_cons]
      rw [ih (fun i hi => hmem i (List.mem_cons_of_mem _ hi))]
      have hlt : slotLen p hd < 65536 := hmem hd (List.mem_cons_self hd tl)
      have e : read_u32_le p.data (30 + hd * 8 + 4) % 65536 = slotLen p hd :=
        Nat.mod_eq_of_lt hlt
      rw [e]
    · simp only [List.filterMap_cons, if_neg h, List.map_cons, List.sum_cons]
      rw [ih (fun i hi => hmem i (List.mem_cons_of_mem _ hi))]
      have e : slotLen p hd = 0 := by unfold slotLen; omega
      rw [e]
      omega

/-- Prefix sums over `List.range` are monotone in the length. -/
theorem range_prefix_sum_le (f : Nat → Nat) (n m : Nat) (h : n ≤ m) :
    ((List.range n).map f).sum ≤ ((List.range m).map f).sum := by
  have e : m = n + (m - n) := by omega
  rw [e, List.range_add, List.map_append, List.sum_append]
  omega

theorem PW_compact (p : Page) (hpw : PW p) : PW (compact p) := by
  obtain ⟨hlow, hlu, hup, hsum, hlens⟩ := hpw
  have hkc : p.header.key_count ≤ 508 := by omega
  have hn : (validItems p).length ≤ p.header.key_count := by
    unfold validItems
    exact le_trans (List.length_filterMap_le _ _) (by simp)
  have hsv : ((validItems p).map Prod.snd).sum = slotLenSum p := by
    unfold validItems slotLenSum
    exact filterValid_sum p (List.range p.header.key_count)
      (fun i hi => hlens i (List.mem_range.mp hi))
  obtain ⟨hub, hbytes⟩ := compactFold (validItems p) p.data 4096 0
    (by rw [hsv]; omega) (by omega)
  have h1 : (compact p).header.upper_ptr =
      ((validItems p).foldl compactStep (p.data, 4096, 0)).2.1 := rfl
  have h2 : (compact p).header.key_count = (validItems p).length % 65536 := rfl
  have h3 : (compact p).header.lower_ptr = (30 + (validItems p).length * 8) % 65536 := rfl
  have hkcm : (validItems p).length % 65536 = (validItems p).length :=
    Nat.mod_eq_of_lt (by omega)
  have hlom : (30 + (validItems p).length * 8) % 65536 = 30 + (validItems p).length * 8 :=
    Nat.mod_eq_of_lt (by omega)
  -- the surviving slots keep their length bytes
  have hsl : ∀ i, i < (validItems p).length → slotLen (compact p) i = slotLen p i := by
    intro i hi
    have : slotLen (compact p) i =
        read_u32_le ((validItems p).foldl compactStep (p.data, 4096, 0)).1 (30 + i * 8 + 4) := by
      unfold slotLen
      exact read_u32_congr _ _ _ (fun j h1 _ =>
        serialize_data_high _ _ (by omega))
    rw [this]
    exact read_u32_congr _ _ _ (fun j hj1 hj2 =>
      hbytes j (by rw [hsv]; omega) (fun k hk1 hk2 => by omega))
  rw [PW, h1, h2, h3, hub, hsv, hkcm, hlom]
  refine ⟨by omega, by omega, by omega, ?_, ?_⟩
  · -- new sum: the first `n` old lengths
    have : slotLenSum (compact p) ≤ slotLenSum p := by
      unfold slotLenSum
      rw [h2, hkcm]
      have e : (List.range (validItems p).length).map (slotLen (compact p)) =
          (List.range (validItems p).length).map (slotLen p) :=
        List.map_congr_left (fun i hi => hsl i (List.mem_range.mp hi))
      rw [e]
      exact range_prefix_sum_le _ _ _ hn
    -- slotLenSum is about (compact p), whose key_count we already rewrote
    omega
  · intro i hi
    rw [hsl i hi]
    exact hlens i (by omega)

theorem PW_applyOps (ops : List PageOp) :
    ∀ p, PW p → ops.all opSizeOK = true → PW (applyOps p ops) := by
  induction ops with
  | nil => intro p hp _; exact hp
  | cons op rest ih =>
    intro p hp hall
    rw [List.all_cons, Bool.and_eq_true] at hall
    have hop : PW (applyOp p op) := by
      cases op with
      | ins item size =>
        apply PW_insert p item size hp
        have := hall.1
        unfold opSizeOK at this
        exact of_decide_eq_true this
      | del idx => exact PW_delete p idx hp
      | comp => exact PW_compact p hp
    exact ih (applyOp p op) hop hall.2

/-- **C7**: starting from `init_header` (on any page object, any id and
type), every sequence of page operations — `insert_item` (with record sizes
below the `uint16` wrap point), `delete_item`, `compact` — leaves the
header layout invariant `30 = sizeof(header) ≤ lower_ptr ≤ upper_ptr ≤
4096` intact; in particular it holds right after `init_header` (the empty
sequence). -/
theorem claim_C7_layout_invariant (p0 : Page) (pid ptype : Nat) (ops : List PageOp)
    (hops : ops.all opSizeOK = true) :
    30 ≤ (applyOps (init_header p0 pid ptype) ops).header.lower_ptr ∧
    (applyOps (init_header p0 pid ptype) ops).header.lower_ptr ≤
      (applyOps (init_header p0 pid ptype) ops).header.upper_ptr ∧
    (applyOps (init_header p0 pid ptype) ops).header.upper_ptr ≤ 4096 := by
  obtain ⟨h1, h2, h3, -, -⟩ := PW_applyOps ops (init_header p0 pid ptype)
    (PW_init p0 pid ptype) hops
  exact ⟨by omega, h2, h3⟩

/-- Witness for C7: insert one leaf record, tombstone it, compact. -/
theorem claim_C7_witness :
    30 ≤ (applyOps (init_header zeroPage 1 2)
      [.ins (leafNodeBytes ⟨10, 97⟩) 8, .del 0, .comp]).header.lower_ptr ∧
    (applyOps (init_header zeroPage 1 2)
      [.ins (leafNodeBytes ⟨10, 97⟩) 8, .del 0, .comp]).header.lower_ptr ≤
      (applyOps (init_header zeroPage 1 2)
        [.ins (leafNodeBytes ⟨10, 97⟩) 8, .del 0, .comp]).header.upper_ptr ∧
    (applyOps (init_header zeroPage 1 2)
      [.ins (leafNodeBytes ⟨10, 97⟩) 8, .del 0, .comp]).header.upper_ptr ≤ 4096 :=
  claim_C7_layout_invariant zeroPage 1 2
    [.ins (leafNodeBytes ⟨10, 97⟩) 8, .del 0, .comp] (by decide)

/-! ## Part B: the paged B+Tree

The array-backed `Page<KeyType, ValueType>` of the tree source file, its
`BufferPoolManager`, and `PagedBPlusTree` itself.  `fetchPage` creates a
default-constructed page for any id not yet resident, so the page table is
modelled as a total function defaulting to a fresh page.  `KeyType` is `Int`
(the C `int` instantiation); `ValueType` stays a type parameter.  Unbounded
loops (descent, the upward split recursion, chain walks) take a structural
fuel argument; the public entry points pass `nextPageId`, which in any
well-formed tree exceeds the tree height and the leaf-chain length, so the
fuel is never exhausted there. -/

/-- `(uint32)` cast of a C `int`. -/
def u32ofInt (z : Int) : Nat := (z % 4294967296).toNat

inductive PType where
  | internal
  | leaf
deriving DecidableEq, Repr

/-- The in-memory tree page: header plus `keys`, `children` (internal) and
`values` (leaf) arrays, modelled as total functions. -/
structure BPage (V : Type) where
  pageType : PType
  keyCount : Nat
  parentPageId : Nat
  nextPageId : Nat
  prevPageId : Nat
  keys : Nat → Int
  children : Nat → Nat
  values : Nat → V

/-- A default-constructed page (`PageHeader()` zeroes everything, `memset`
zeroes the arrays, values are default-constructed). -/
def BPage.new (V : Type) [Inhabited V] : BPage V :=
  ⟨.leaf, 0, 0, 0, 0, fun _ => 0, fun _ => 0, fun _ => default⟩

/-- The tree state: the buffer pool's page table and id counter plus the
tree metadata. -/
structure PagedBPlusTree (V : Type) where
  pages : Nat → BPage V
  nextPageId : Nat
  rootPageId : Nat
  firstLeafPageId : Nat
  order : Int

variable {V : Type} [Inhabited V]

/-- `fetchPage`: the resident page, or a fresh default one. -/
def fetchPage (t : PagedBPlusTree V) (pid : Nat) : BPage V := t.pages pid

/-- Store a page object back under its id. -/
def setPage (t : PagedBPlusTree V) (pid : Nat) (pg : BPage V) : PagedBPlusTree V :=
  { t with pages := fun q => if q = pid then pg else t.pages q }

/-- `allocatePage`: `nextPageId++`. -/
def allocatePage (t : PagedBPlusTree V) : Nat × PagedBPlusTree V :=
  (t.nextPageId, { t with nextPageId := t.nextPageId + 1 })

/-- The per-node key capacity test value `(uint32)(order - 1)`. -/
def ordCap (t : PagedBPlusTree V) : Nat := u32ofInt (t.order - 1)

/-- Update one array cell. -/
def writeIdx {α : Type} (f : Nat → α) (i : Nat) (a : α) : Nat → α :=
  fun j => if j = i then a else f j

/-- Net effect of the shift-up loop
(`for i = cnt; i > pos; i--: a[i] = a[i-1]`) followed by `a[pos] = x`. -/
def insertAt {α : Type} (f : Nat → α) (cnt pos : Nat) (a : α) : Nat → α :=
  fun i => if i < pos then f i else if i = pos then a else if i ≤ cnt then f (i - 1) else f i

/-- Net effect of `std::copy(l.begin(), l.end(), arr)`. -/
def copyList {α : Type} (f : Nat → α) (l : List α) : Nat → α :=
  fun i => if h : i < l.length then l.get ⟨i, h⟩ else f i

/-- `while (pos < size && temp[pos] < key) pos++` over a copied vector. -/
def listInsertPos : List Int → Int → Nat
  | [], _ => 0
  | x :: xs, key => if x < key then listInsertPos xs key + 1 else 0

/-- The descent scan `while (pos < keyCount && key >= keys[pos]) pos++`,
fuelled by the remaining distance to `keyCount`. -/
def findChildPosGo (page : BPage V) (key : Int) : Nat → Nat → Nat
  | pos, 0 => pos
  | pos, rem + 1 =>
    if pos < page.keyCount ∧ page.keys pos ≤ key then findChildPosGo page key (pos + 1) rem
    else pos

def findChildPos (page : BPage V) (key : Int) : Nat := findChildPosGo page key 0 page.keyCount

/-- The sorted-insert scan `while (pos < keyCount && keys[pos] < key) pos++`. -/
def insertPosGo (page : BPage V) (key : Int) : Nat → Nat → Nat
  | pos, 0 => pos
  | pos, rem + 1 =>
    if pos < page.keyCount ∧ page.keys pos < key then insertPosGo page key (pos + 1) rem
    else pos

def insertPos (page : BPage V) (key : Int) : Nat := insertPosGo page key 0 page.keyCount

/-- The duplicate-key scan `for i in 0..keyCount: if keys[i] == key …`. -/
def leafFindGo (page : BPage V) (key : Int) : Nat → Nat → Option Nat
  | _, 0 => none
  | i, rem + 1 =>
    if i < page.keyCount then
      if page.keys i = key then some i else leafFindGo page key (i + 1) rem
    else none

def leafFindIdx (page : BPage V) (key : Int) : Option Nat := leafFindGo page key 0 page.keyCount

/-- `findLeafPage` descent. -/
def findLeafAux (t : PagedBPlusTree V) (key : Int) : Nat → Nat → Nat
  | 0, pid => pid
  | fuel + 1, pid =>
    let page := fetchPage t pid
    if page.pageType = .leaf then pid
    else findLeafAux t key fuel (page.children (findChildPos page key))

def findLeafPage (t : PagedBPlusTree V) (key : Int) : Nat :=
  findLeafAux t key t.nextPageId t.rootPageId

/-- The keys `keys[0..keyCount)` of a page as a list. -/
def pageKeysList (p : BPage V) : List Int := (List.range p.keyCount).map p.keys

/-- The children `children[0..keyCount]` of an internal page as a list. -/
def pageChildrenList (p : BPage V) : List Nat := (List.range (p.keyCount + 1)).map p.children

/-- The `(key, value)` records of a leaf page as a list. -/
def pagePairs (p : BPage V) : List (Int × V) :=
  (List.range p.keyCount).map fun i => (p.keys i, p.values i)

/-- The body of `splitInternalPage` before the parent/root propagation:
allocate and type the new page, merge `key`/`childPageId` into the copied
arrays, split at `mid = (order + 1) / 2` promoting `midKey = tempKeys[mid]`
(kept in neither half), and re-parent the right page's children.  Returns
the updated state, the new page id and the promoted key. -/
def splitInternalCore (t0 : PagedBPlusTree V) (internalPageId : Nat) (key : Int)
    (childPageId : Nat) : PagedBPlusTree V × Nat × Int :=
  let a := allocatePage t0
  let newInternalPageId := a.1
  let t1 := a.2
  let t2 := setPage t1 newInternalPageId
    { fetchPage t1 newInternalPageId with pageType := .internal }
  let internalPage := fetchPage t2 internalPageId
  let tempKeys0 := pageKeysList internalPage
  let tempChildren0 := pageChildrenList internalPage
  let pos := listInsertPos tempKeys0 key
  let tempKeys := tempKeys0.insertIdx pos key
  let tempChildren := tempChildren0.insertIdx (pos + 1) childPageId
  let mid := ((t2.order + 1) / 2).toNat
  let midKey := tempKeys.getD mid 0
  let left := { internalPage with
    keyCount := mid,
    keys := copyList internalPage.keys (tempKeys.take mid),
    children := copyList internalPage.children (tempChildren.take (mid + 1)) }
  let t3 := setPage t2 internalPageId left
  let right := { fetchPage t3 newInternalPageId with
    keyCount := tempKeys.length - mid - 1,
    keys := copyList (fetchPage t3 newInternalPageId).keys (tempKeys.drop (mid + 1)),
    children := copyList (fetchPage t3 newInternalPageId).children
      (tempChildren.drop (mid + 1)) }
  let t4 := setPage t3 newInternalPageId right
  let t5 := (List.range ((fetchPage t4 newInternalPageId).keyCount + 1)).foldl
    (fun s i => setPage s ((fetchPage s newInternalPageId).children i)
      { fetchPage s ((fetchPage s newInternalPageId).children i) with
        parentPageId := newInternalPageId }) t4
  (t5, newInternalPageId, midKey)

/-- `insertInternal(key, internalPageId, childPageId)`: insert directly
when the node has room (`keyCount < (uint32)(order-1)`), else run
`splitInternalPage` — `splitInternalCore` followed by root creation or the
recursive parent insertion, which is where the fuel decreases. -/
def insertInternal : Nat → PagedBPlusTree V → Int → Nat → Nat → PagedBPlusTree V
  | 0, t, _, _, _ => t
  | fuel + 1, t, key, internalPageId, childPageId =>
    let internalPage := fetchPage t internalPageId
    if internalPage.keyCount < ordCap t then
      let pos := insertPos internalPage key
      let page1 := { internalPage with
        keys := insertAt internalPage.keys internalPage.keyCount pos key,
        children := insertAt internalPage.children (internalPage.keyCount + 1) (pos + 1)
          childPageId,
        keyCount := internalPage.keyCount + 1 }
      let t1 := setPage t internalPageId page1
      setPage t1 childPageId { fetchPage t1 childPageId with parentPageId := internalPageId }
    else
      let r := splitInternalCore t internalPageId key childPageId
      let t5 := r.1
      let newInternalPageId := r.2.1
      let midKey := r.2.2
      if internalPageId = t5.rootPageId then
        let b := allocatePage t5
        let newRootPageId := b.1
        let t6 := b.2
        let newRoot := { fetchPage t6 newRootPageId with
          pageType := .internal, keyCount := 1,
          keys := writeIdx (fetchPage t6 newRootPageId).keys 0 midKey,
          children := writeIdx (writeIdx (fetchPage t6 newRootPageId).children 0
            internalPageId) 1 newInternalPageId }
        let t7 := setPage t6 newRootPageId newRoot
        let t8 := setPage t7 internalPageId
          { fetchPage t7 internalPageId with parentPageId := newRootPageId }
        let t9 := setPage t8 newInternalPageId
          { fetchPage t8 newInternalPageId with parentPageId := newRootPageId }
        { t9 with rootPageId := newRootPageId }
      else
        let t6 := setPage t5 newInternalPageId
          { fetchPage t5 newInternalPageId with
            parentPageId := (fetchPage t5 internalPageId).parentPageId }
        insertInternal fuel t6 midKey ((fetchPage t6 internalPageId).parentPageId)
          newInternalPageId

/-- `splitLeafPage(leafPageId, key, value)`: merge the new pair into the
copied sorted arrays, split at `mid = (order + 1) / 2` (left half stays,
right half goes to the fresh leaf), splice the new leaf into the sibling
chain, then either grow a new root (separator = the new leaf's first key)
or propagate that separator into the parent via `insertInternal`. -/
def splitLeafPage (fuel : Nat) (t0 : PagedBPlusTree V) (leafPageId : Nat) (key : Int)
    (value : V) : PagedBPlusTree V :=
  let a := allocatePage t0
  let newLeafPageId := a.1
  let t1 := a.2
  let t2 := setPage t1 newLeafPageId { fetchPage t1 newLeafPageId with pageType := .leaf }
  let leafPage := fetchPage t2 leafPageId
  let tempKeys0 := pageKeysList leafPage
  let tempValues0 := (List.range leafPage.keyCount).map leafPage.values
  let pos := listInsertPos tempKeys0 key
  let tempKeys := tempKeys0.insertIdx pos key
  let tempValues := tempValues0.insertIdx pos value
  let mid := ((t2.order + 1) / 2).toNat
  let left := { leafPage with
    keyCount := mid,
    keys := copyList leafPage.keys (tempKeys.take mid),
    values := copyList leafPage.values (tempValues.take mid) }
  let t3 := setPage t2 leafPageId left
  let right := { fetchPage t3 newLeafPageId with
    keyCount := tempKeys.length - mid,
    keys := copyList (fetchPage t3 newLeafPageId).keys (tempKeys.drop mid),
    values := copyList (fetchPage t3 newLeafPageId).values (tempValues.drop mid),
    nextPageId := leafPage.nextPageId,
    prevPageId := leafPageId }
  let t4 := setPage t3 newLeafPageId right
  let t5 :=
    if (fetchPage t4 leafPageId).nextPageId ≠ 0 then
      setPage t4 (fetchPage t4 leafPageId).nextPageId
        { fetchPage t4 ((fetchPage t4 leafPageId).nextPageId) with
          prevPageId := newLeafPageId }
    else t4
  let t6 := setPage t5 leafPageId { fetchPage t5 leafPageId with nextPageId := newLeafPageId }
  if leafPageId = t6.rootPageId then
    let b := allocatePage t6
    let newRootPageId := b.1
    let t7 := b.2
    let newRoot := { fetchPage t7 newRootPageId with
      pageType := .internal, keyCount := 1,
      keys := writeIdx (fetchPage t7 newRootPageId).keys 0
        ((fetchPage t7 newLeafPageId).keys 0),
      children := writeIdx (writeIdx (fetchPage t7 newRootPageId).children 0 leafPageId) 1
        newLeafPageId }
    let t8 := setPage t7 newRootPageId newRoot
    let t9 := setPage t8 leafPageId { fetchPage t8 leafPageId with parentPageId := newRootPageId }
    let t10 := setPage t9 newLeafPageId
      { fetchPage t9 newLeafPageId with parentPageId := newRootPageId }
    { t10 with rootPageId := newRootPageId }
  else
    let t7 := setPage t6 newLeafPageId
      { fetchPage t6 newLeafPageId with
        parentPageId := (fetchPage t6 leafPageId).parentPageId }
    insertInternal fuel t7 ((fetchPage t7 newLeafPageId).keys 0)
      ((fetchPage t7 leafPageId).parentPageId) newLeafPageId

/-- `insert(key, value)`: overwrite in the owning leaf if present, insert
in sorted position if the leaf has room, split otherwise. -/
def insert (t : PagedBPlusTree V) (key : Int) (value : V) : PagedBPlusTree V :=
  let leafPageId := findLeafPage t key
  let leafPage := fetchPage t leafPageId
  match leafFindIdx leafPage key with
  | some i => setPage t leafPageId { leafPage with values := writeIdx leafPage.values i value }
  | none =>
    if leafPage.keyCount < ordCap t then
      let pos := insertPos leafPage key
      setPage t leafPageId { leafPage with
        keys := insertAt leafPage.keys leafPage.keyCount pos key,
        values := insertAt leafPage.values leafPage.keyCount pos value,
        keyCount := leafPage.keyCount + 1 }
    else splitLeafPage t.nextPageId t leafPageId key value

/-- The constructor `PagedBPlusTree(int ord)`: allocate the root leaf. -/
def newTree (V : Type) [Inhabited V] (ord : Int) : PagedBPlusTree V :=
  let t0 : PagedBPlusTree V :=
    { pages := fun _ => BPage.new V, nextPageId := 1, rootPageId := 0,
      firstLeafPageId := 0, order := ord }
  let a := allocatePage t0
  let t1 := setPage a.2 a.1 { fetchPage a.2 a.1 with pageType := .leaf }
  { t1 with rootPageId := a.1, firstLeafPageId := a.1 }

/-- `search(key)`: descend, then scan the leaf for an exact match. -/
def search (t : PagedBPlusTree V) (key : Int) : Option V :=
  let leafPage := fetchPage t (findLeafPage t key)
  (leafFindIdx leafPage key).map leafPage.values

/-- The per-leaf loop of `rangeQuery`: push pairs in `[s, e]`, stop the
whole query once a key above `e` is seen. -/
def scanLeafGo (p : BPage V) (s e : Int) : Nat → Nat → List (Int × V) →
    List (Int × V) × Bool
  | _, 0, acc => (acc, false)
  | i, rem + 1, acc =>
    if i < p.keyCount then
      let acc1 := if s ≤ p.keys i ∧ p.keys i ≤ e then acc ++ [(p.keys i, p.values i)] else acc
      if e < p.keys i then (acc1, true)
      else scanLeafGo p s e (i + 1) rem acc1
    else (acc, false)

/-- The leaf-chain walk of `rangeQuery` (`while leafPageId != INVALID`). -/
def rangeGo (t : PagedBPlusTree V) (s e : Int) : Nat → Nat → List (Int × V) → List (Int × V)
  | 0, _, acc => acc
  | fuel + 1, pid, acc =>
    if pid = 0 then acc
    else
      let p := fetchPage t pid
      let r := scanLeafGo p s e 0 p.keyCount acc
      if r.2 then r.1 else rangeGo t s e fuel p.nextPageId r.1

/-- `rangeQuery(startKey, endKey)`. -/
def rangeQuery (t : PagedBPlusTree V) (s e : Int) : List (Int × V) :=
  rangeGo t s e t.nextPageId (findLeafPage t s) []

/-- The observable of the spec's "full forward traversal of the leaf
sibling chain": all records, in chain order, starting from
`firstLeafPageId` and following `nextPageId`. -/
def chainGo (t : PagedBPlusTree V) : Nat → Nat → List (Int × V) → List (Int × V)
  | 0, _, acc => acc
  | fuel + 1, pid, acc =>
    if pid = 0 then acc
    else chainGo t fuel (fetchPage t pid).nextPageId (acc ++ pagePairs (fetchPage t pid))

def chainPairs (t : PagedBPlusTree V) : List (Int × V) :=
  chainGo t t.nextPageId t.firstLeafPageId []

/-! ### Basic state lemmas -/

@[simp] theorem setPage_order (t : PagedBPlusTree V) (q : Nat) (pg : BPage V) :
    (setPage t q pg).order = t.order := rfl

@[simp] theorem setPage_nextPageId (t : PagedBPlusTree V) (q : Nat) (pg : BPage V) :
    (setPage t q pg).nextPageId = t.nextPageId := rfl

@[simp] theorem setPage_rootPageId (t : PagedBPlusTree V) (q : Nat) (pg : BPage V) :
    (setPage t q pg).rootPageId = t.rootPageId := rfl

@[simp] theorem setPage_firstLeaf (t : PagedBPlusTree V) (q : Nat) (pg : BPage V) :
    (setPage t q pg).firstLeafPageId = t.firstLeafPageId := rfl

@[simp] theorem allocatePage_fst (t : PagedBPlusTree V) :
    (allocatePage t).1 = t.nextPageId := rfl

@[simp] theorem allocatePage_order (t : PagedBPlusTree V) :
    (allocatePage t).2.order = t.order := rfl

@[simp] theorem allocatePage_nextPageId (t : PagedBPlusTree V) :
    (allocatePage t).2.nextPageId = t.nextPageId + 1 := rfl

@[simp] theorem allocatePage_rootPageId (t : PagedBPlusTree V) :
    (allocatePage t).2.rootPageId = t.rootPageId := rfl

@[simp] theorem allocatePage_firstLeaf (t : PagedBPlusTree V) :
    (allocatePage t).2.firstLeafPageId = t.firstLeafPageId := rfl

@[simp] theorem fetchPage_allocatePage (t : PagedBPlusTree V) (r : Nat) :
    fetchPage (allocatePage t).2 r = fetchPage t r := rfl

theorem fetchPage_setPage (t : PagedBPlusTree V) (q : Nat) (pg : BPage V) (r : Nat) :
    fetchPage (setPage t q pg) r = if r = q then pg else fetchPage t r := rfl

@[simp] theorem ordCap_setPage (t : PagedBPlusTree V) (q : Nat) (pg : BPage V) :
    ordCap (setPage t q pg) = ordCap t := rfl

@[simp] theorem ordCap_allocatePage (t : PagedBPlusTree V) :
    ordCap (allocatePage t).2 = ordCap t := rfl

theorem fetchPage_setPage_self (t : PagedBPlusTree V) (q : Nat) (pg : BPage V) :
    fetchPage (setPage t q pg) q = pg := by
  rw [fetchPage_setPage, if_pos rfl]

theorem fetchPage_setPage_ne (t : PagedBPlusTree V) (q : Nat) (pg : BPage V) (r : Nat)
    (h : r ≠ q) : fetchPage (setPage t q pg) r = fetchPage t r := by
  rw [fetchPage_setPage, if_neg h]

theorem listInsertPos_le (l : List Int) (key : Int) : listInsertPos l key ≤ l.length := by
  induction l with
  | nil => exact Nat.le_refl 0
  | cons x xs ih =>
    unfold listInsertPos
    by_cases h : x < key
    · rw [if_pos h]; simpa using ih
    · rw [if_neg h]; simp

theorem pageKeysList_length (p : BPage V) : (pageKeysList p).length = p.keyCount := by
  unfold pageKeysList; simp

theorem pageChildrenList_length (p : BPage V) :
    (pageChildrenList p).length = p.keyCount + 1 := by
  unfold pageChildrenList; simp

/-! ### C2: the internal key/child convention -/

/-- The order-3 tree after inserting 10, 20, 5 (a root leaf split). -/
def treeC2 : PagedBPlusTree Nat := insert (insert (insert (newTree Nat 3) 10 1) 20 2) 5 3

/-- **C2** is false on the code: after the root split of the order-3 tree
the root is internal with `keyCount = 1` but carries TWO live child
pointers (`children[0] = 1`, `children[1] = 2`), and lookup descent uses
both — key 7 goes through `children[0]`, key 25 through
`children[keyCount] = children[1]`, where the stored pair (20 ↦ 2) is
found.  Under the claimed N-keys/N-children convention a 1-key node would
hold exactly one child pointer and index `keyCount` would never be
followed. -/
theorem claim_C2_counterexample :
    (fetchPage treeC2 treeC2.rootPageId).pageType = .internal ∧
    (fetchPage treeC2 treeC2.rootPageId).keyCount = 1 ∧
    (fetchPage treeC2 treeC2.rootPageId).children 0 = 1 ∧
    (fetchPage treeC2 treeC2.rootPageId).children 1 = 2 ∧
    findLeafPage treeC2 7 = 1 ∧ findLeafPage treeC2 25 = 2 ∧
    search treeC2 20 = some 2 := by
  refine ⟨by decide, by decide, by decide, by decide, by decide, by decide, by decide⟩

/-! ### C10: every page keeps at most `order - 1` keys -/

/-- Global key-count bound: every page object in the pool (hence in
particular every page reachable from the root) is within the split
threshold. -/
def AllCap (t : PagedBPlusTree V) : Prop :=
  ∀ pid, (fetchPage t pid).keyCount ≤ ordCap t

theorem ordCap_toNat (t : PagedBPlusTree V) (h3 : 3 ≤ t.order)
    (hmax : t.order ≤ 2147483647) : ordCap t = (t.order - 1).toNat := by
  unfold ordCap u32ofInt
  rw [Int.emod_eq_of_lt (by omega) (by omega)]

/-- The re-parenting fold touches only parent pointers: every page's
`keyCount` (and the tree metadata) is unchanged. -/
theorem reparentFold_keyCount (l : List Nat) (nid : Nat) :
    ∀ (t : PagedBPlusTree V) (pid : Nat),
      (fetchPage (l.foldl (fun s i => setPage s ((fetchPage s nid).children i)
        { fetchPage s ((fetchPage s nid).children i) with parentPageId := nid }) t)
        pid).keyCount = (fetchPage t pid).keyCount := by
  induction l with
  | nil => intro t pid; rfl
  | cons hd tl ih =>
    intro t pid
    rw [List.foldl_cons, ih]
    rw [fetchPage_setPage]
    by_cases h : pid = (fetchPage t nid).children hd
    · rw [if_pos h, h]
    · rw [if_neg h]

theorem reparentFold_meta (l : List Nat) (nid : Nat) :
    ∀ (t : PagedBPlusTree V),
      (l.foldl (fun s i => setPage s ((fetchPage s nid).children i)
        { fetchPage s ((fetchPage s nid).children i) with parentPageId := nid }) t).order =
          t.order ∧
      (l.foldl (fun s i => setPage s ((fetchPage s nid).children i)
        { fetchPage s ((fetchPage s nid).children i) with parentPageId := nid }) t).nextPageId =
          t.nextPageId ∧
      (l.foldl (fun s i => setPage s ((fetchPage s nid).children i)
        { fetchPage s ((fetchPage s nid).children i) with parentPageId := nid }) t).rootPageId =
          t.rootPageId ∧
      (l.foldl (fun s i => setPage s ((fetchPage s nid).children i)
        { fetchPage s ((fetchPage s nid).children i) with parentPageId := nid })
          t).firstLeafPageId = t.firstLeafPageId := by
  induction l with
  | nil => intro t; exact ⟨rfl, rfl, rfl, rfl⟩
  | cons hd tl ih =>
    intro t
    rw [List.foldl_cons]
    exact ih _

theorem mid_le_cap (t : PagedBPlusTree V) (h3 : 3 ≤ t.order) (hmax : t.order ≤ 2147483647) :
    ((t.order + 1) / 2).toNat ≤ ordCap t ∧ 2 ≤ ((t.order + 1) / 2).toNat ∧
      2 ≤ ordCap t := by
  rw [ordCap_toNat t h3 hmax]
  omega

theorem splitInternalCore_order (t : PagedBPlusTree V) (pid : Nat) (key : Int)
    (child : Nat) : (splitInternalCore t pid key child).1.order = t.order := by
  simp only [splitInternalCore]
  rw [(reparentFold_meta _ _ _).1]
  rfl

theorem AllCap_setPage (t : PagedBPlusTree V) (q : Nat) (pg : BPage V) (hAll : AllCap t)
    (hpg : pg.keyCount ≤ ordCap t) : AllCap (setPage t q pg) := by
  intro r
  rw [fetchPage_setPage]
  by_cases hr : r = q
  · rw [if_pos hr]; exact hpg
  · rw [if_neg hr]; exact hAll r

theorem AllCap_splitInternalCore (t : PagedBPlusTree V) (pid : Nat) (key : Int) (child : Nat)
    (hAll : AllCap t) (h3 : 3 ≤ t.order) (hmax : t.order ≤ 2147483647) :
    AllCap (splitInternalCore t pid key child).1 := by
  intro q
  have hcapeq : ordCap (splitInternalCore t pid key child).1 = ordCap t := by
    unfold ordCap
    rw [splitInternalCore_order]
  rw [hcapeq]
  simp only [splitInternalCore]
  rw [reparentFold_keyCount]
  rw [fetchPage_setPage]
  have hmid := mid_le_cap t h3 hmax
  have hkc2 : ∀ r, (fetchPage (setPage (allocatePage t).2 (allocatePage t).1
      { fetchPage (allocatePage t).2 (allocatePage t).1 with pageType := .internal })
      r).keyCount ≤ ordCap t := by
    intro r
    rw [fetchPage_setPage]
    by_cases hr : r = (allocatePage t).1
    · rw [if_pos hr]
      exact hAll _
    · rw [if_neg hr]
      exact hAll _
  have hlen : ∀ (pg : BPage V) (k : Int),
      ((pageKeysList pg).insertIdx (listInsertPos (pageKeysList pg) k) k).length =
        pg.keyCount + 1 := by
    intro pg k
    rw [List.length_insertIdx _ _ (listInsertPos_le _ _)]
    rw [pageKeysList_length]
  by_cases hq : q = (allocatePage t).1
  · rw [if_pos hq]
    dsimp only
    rw [hlen]
    have hd := hkc2 pid
    dsimp only at hd ⊢
    omega
  · rw [if_neg hq]
    rw [fetchPage_setPage]
    by_cases hq2 : q = pid
    · rw [if_pos hq2]
      dsimp only
      simp only [setPage_order, allocatePage_order]
      omega
    · rw [if_neg hq2]
      exact hkc2 q

/-! ### Loop characterizations -/

theorem findChildPosGo_spec (p : BPage V) (key : Int) :
    ∀ (rem pos : Nat), pos + rem = p.keyCount → (∀ m, m < pos → p.keys m ≤ key) →
      pos ≤ findChildPosGo p key pos rem ∧ findChildPosGo p key pos rem ≤ p.keyCount ∧
      (∀ m, m < findChildPosGo p key pos rem → p.keys m ≤ key) ∧
      (findChildPosGo p key pos rem < p.keyCount → key < p.keys (findChildPosGo p key pos rem)) := by
  intro rem
  induction rem with
  | zero =>
    intro pos hsum hbelow
    simp only [findChildPosGo]
    exact ⟨le_refl _, by omega, hbelow, by omega⟩
  | succ rem ih =>
    intro pos hsum hbelow
    simp only [findChildPosGo]
    by_cases hc : pos < p.keyCount ∧ p.keys pos ≤ key
    · rw [if_pos hc]
      have := ih (pos + 1) (by omega) (fun m hm => by
        rcases Nat.lt_or_ge m pos with h | h
        · exact hbelow m h
        · have : m = pos := by omega
          rw [this]; exact hc.2)
      exact ⟨by omega, this.2.1, this.2.2.1, this.2.2.2⟩
    · rw [if_neg hc]
      refine ⟨le_refl _, by omega, hbelow, fun hlt => ?_⟩
      rcases not_and_or.mp hc with h | h
      · omega
      · omega

theorem findChildPos_spec (p : BPage V) (key : Int) :
    findChildPos p key ≤ p.keyCount ∧
    (∀ m, m < findChildPos p key → p.keys m ≤ key) ∧
    (findChildPos p key < p.keyCount → key < p.keys (findChildPos p key)) := by
  have := findChildPosGo_spec p key p.keyCount 0 (by omega) (by omega)
  exact ⟨this.2.1, this.2.2.1, this.2.2.2⟩

theorem insertPosGo_spec (p : BPage V) (key : Int) :
    ∀ (rem pos : Nat), pos + rem = p.keyCount → (∀ m, m < pos → p.keys m < key) →
      pos ≤ insertPosGo p key pos rem ∧ insertPosGo p key pos rem ≤ p.keyCount ∧
      (∀ m, m < insertPosGo p key pos rem → p.keys m < key) ∧
      (insertPosGo p key pos rem < p.keyCount → key ≤ p.keys (insertPosGo p key pos rem)) := by
  intro rem
  induction rem with
  | zero =>
    intro pos hsum hbelow
    simp only [insertPosGo]
    exact ⟨le_refl _, by omega, hbelow, by omega⟩
  | succ rem ih =>
    intro pos hsum hbelow
    simp only [insertPosGo]
    by_cases hc : pos < p.keyCount ∧ p.keys pos < key
    · rw [if_pos hc]
      have := ih (pos + 1) (by omega) (fun m hm => by
        rcases Nat.lt_or_ge m pos with h | h
        · exact hbelow m h
        · have : m = pos := by omega
          rw [this]; exact hc.2)
      exact ⟨by omega, this.2.1, this.2.2.1, this.2.2.2⟩
    · rw [if_neg hc]
      refine ⟨le_refl _, by omega, hbelow, fun hlt => ?_⟩
      rcases not_and_or.mp hc with h | h
      · omega
      · omega

theorem insertPos_spec (p : BPage V) (key : Int) :
    insertPos p key ≤ p.keyCount ∧
    (∀ m, m < insertPos p key → p.keys m < key) ∧
    (insertPos p key < p.keyCount → key ≤ p.keys (insertPos p key)) := by
  have := insertPosGo_spec p key p.keyCount 0 (by omega) (by omega)
  exact ⟨this.2.1, this.2.2.1, this.2.2.2⟩

theorem leafFindGo_spec (p : BPage V) (key : Int) :
    ∀ (rem pos : Nat),
      (∀ i, (leafFindGo p key pos rem = some i) → pos ≤ i ∧ i < p.keyCount ∧ p.keys i = key) ∧
      (leafFindGo p key pos rem = none → pos + rem = p.keyCount →
        ∀ m, pos ≤ m → m < p.keyCount → p.keys m ≠ key) := by
  intro rem
  induction rem with
  | zero =>
    intro pos
    simp only [leafFindGo]
    refine ⟨fun i h => ?_, fun _ hsum m hm1 hm2 => ?_⟩
    · cases h
    · omega
  | succ rem ih =>
    intro pos
    simp only [leafFindGo]
    by_cases hin : pos < p.keyCount
    · rw [if_pos hin]
      by_cases heq : p.keys pos = key
      · rw [if_pos heq]
        refine ⟨fun i h => ?_, fun h => by cases h⟩
        injection h with h
        subst h
        exact ⟨le_refl _, hin, heq⟩
      · rw [if_neg heq]
        refine ⟨fun i h => ?_, fun h hsum m hm1 hm2 => ?_⟩
        · have := (ih (pos + 1)).1 i h
          exact ⟨by omega, this.2⟩
        · rcases Nat.lt_or_ge m (pos + 1) with hm | hm
          · have : m = pos := by omega
            rw [this]; exact heq
          · exact (ih (pos + 1)).2 h (by omega) m hm hm2
    · rw [if_neg hin]
      refine ⟨fun i h => ?_, fun _ hsum m hm1 hm2 => ?_⟩
      · cases h
      · omega

theorem leafFindIdx_some (p : BPage V) (key : Int) (i : Nat)
    (h : leafFindIdx p key = some i) : i < p.keyCount ∧ p.keys i = key := by
  have := (leafFindGo_spec p key p.keyCount 0).1 i h
  exact ⟨this.2.1, this.2.2⟩

theorem leafFindIdx_none (p : BPage V) (key : Int) (h : leafFindIdx p key = none) :
    ∀ m, m < p.keyCount → p.keys m ≠ key :=
  fun m hm => (leafFindGo_spec p key p.keyCount 0).2 h (by omega) m (by omega) hm

theorem listInsertPos_spec (l : List Int) (key : Int) :
    (∀ m, m < listInsertPos l key → l.getD m 0 < key) ∧
    (listInsertPos l key < l.length → key ≤ l.getD (listInsertPos l key) 0) := by
  induction l with
  | nil => exact ⟨fun m hm => by simp [listInsertPos] at hm, by simp⟩
  | cons x xs ih =>
    unfold listInsertPos
    by_cases h : x < key
    · rw [if_pos h]
      refine ⟨fun m hm => ?_, fun hlen => ?_⟩
      · cases m with
        | zero => simpa using h
        | succ m => exact ih.1 m (by omega)
      · exact ih.2 (by simpa using hlen)
    · rw [if_neg h]
      exact ⟨fun m hm => by omega, fun _ => by simpa using not_lt.mp h⟩

/-! ### Array-helper characterizations -/

theorem copyList_lt {α : Type} (f : Nat → α) (l : List α) (i : Nat) (d : α)
    (h : i < l.length) : copyList f l i = l.getD i d := by
  unfold copyList
  rw [dif_pos h, List.getD_eq_getElem l d h]
  simp

theorem copyList_ge {α : Type} (f : Nat → α) (l : List α) (i : Nat)
    (h : l.length ≤ i) : copyList f l i = f i := by
  unfold copyList
  rw [dif_neg (by omega)]

theorem insertAt_spec {α : Type} (f : Nat → α) (cnt pos : Nat) (a : α) (hpos : pos ≤ cnt) :
    (∀ i, i < pos → insertAt f cnt pos a i = f i) ∧
    insertAt f cnt pos a pos = a ∧
    (∀ i, pos < i → i ≤ cnt → insertAt f cnt pos a i = f (i - 1)) ∧
    (∀ i, cnt < i → insertAt f cnt pos a i = f i) := by
  refine ⟨fun i hi => ?_, ?_, fun i hi1 hi2 => ?_, fun i hi => ?_⟩
  · unfold insertAt; rw [if_pos hi]
  · unfold insertAt; rw [if_neg (by omega), if_pos rfl]
  · unfold insertAt; rw [if_neg (by omega), if_neg (by omega), if_pos (by omega)]
  · unfold insertAt
    by_cases h1 : i < pos
    · rw [if_pos h1]
    · rw [if_neg h1, if_neg (by omega), if_neg (by omega)]

theorem writeIdx_eq {α : Type} (f : Nat → α) (i : Nat) (a : α) : writeIdx f i a i = a := by
  unfold writeIdx; rw [if_pos rfl]

theorem writeIdx_ne {α : Type} (f : Nat → α) (i : Nat) (a : α) (j : Nat) (h : j ≠ i) :
    writeIdx f i a j = f j := by
  unfold writeIdx; rw [if_neg h]

theorem pageKeysList_getD (p : BPage V) (i : Nat) (h : i < p.keyCount) :
    (pageKeysList p).getD i 0 = p.keys i := by
  unfold pageKeysList
  rw [List.getD_eq_getElem _ _ (by simpa using h)]
  simp

theorem AllCap_rootId (t : PagedBPlusTree V) (x : Nat) (h : AllCap t) :
    AllCap { t with rootPageId := x } := h

theorem AllCap_insertInternal : ∀ (fuel : Nat) (t : PagedBPlusTree V) (key : Int)
    (pid child : Nat), AllCap t → 3 ≤ t.order → t.order ≤ 2147483647 →
    AllCap (insertInternal fuel t key pid child) := by
  intro fuel
  induction fuel with
  | zero => intro t key pid child hAll _ _; exact hAll
  | succ fuel ih =>
    intro t key pid child hAll h3 hmax
    simp only [insertInternal]
    by_cases hroom : (fetchPage t pid).keyCount < ordCap t
    · rw [if_pos hroom]
      apply AllCap_setPage
      · apply AllCap_setPage _ _ _ hAll
        dsimp only
        omega
      · simp only [ordCap_setPage]
        rw [fetchPage_setPage]
        by_cases hc : child = pid
        · rw [if_pos hc]; dsimp only; omega
        · rw [if_neg hc]; exact hAll child
    · rw [if_neg hroom]
      have hA5 := AllCap_splitInternalCore t pid key child hAll h3 hmax
      have hcap5 : ordCap (splitInternalCore t pid key child).1 = ordCap t := by
        unfold ordCap; rw [splitInternalCore_order]
      have hcap2 : 2 ≤ ordCap t := (mid_le_cap t h3 hmax).2.2
      by_cases hroot : pid = (splitInternalCore t pid key child).1.rootPageId
      · rw [if_pos hroot]
        apply AllCap_rootId
        apply AllCap_setPage
        · apply AllCap_setPage
          · apply AllCap_setPage
            · exact hA5
            · dsimp only
              simp only [ordCap_allocatePage]
              omega
          · simp only [ordCap_setPage, ordCap_allocatePage]
            rw [fetchPage_setPage]
            by_cases h1 : pid = (allocatePage (splitInternalCore t pid key child).1).1
            · rw [if_pos h1]; dsimp only; omega
            · rw [if_neg h1]; exact hA5 pid
        · simp only [ordCap_setPage, ordCap_allocatePage]
          rw [fetchPage_setPage]
          by_cases h2 : (splitInternalCore t pid key child).2.1 = pid
          · rw [if_pos h2]
            dsimp only
            rw [fetchPage_setPage]
            by_cases h3b : pid = (allocatePage (splitInternalCore t pid key child).1).1
            · rw [if_pos h3b]; dsimp only; omega
            · rw [if_neg h3b]; exact hA5 pid
          · rw [if_neg h2]
            rw [fetchPage_setPage]
            by_cases h4 : (splitInternalCore t pid key child).2.1 =
                (allocatePage (splitInternalCore t pid key child).1).1
            · rw [if_pos h4]; dsimp only; omega
            · rw [if_neg h4]; exact hA5 _
      · rw [if_neg hroot]
        apply ih
        · apply AllCap_setPage _ _ _ hA5
          dsimp only
          exact hA5 _
        · show 3 ≤ (setPage _ _ _).order
          rw [setPage_order, splitInternalCore_order]
          exact h3
        · show (setPage _ _ _).order ≤ 2147483647
          rw [setPage_order, splitInternalCore_order]
          exact hmax
theorem AllCap_allocatePage (t : PagedBPlusTree V) (hAll : AllCap t) :
    AllCap (allocatePage t).2 := by
  intro r
  rw [fetchPage_allocatePage, ordCap_allocatePage]
  exact hAll r

theorem AllCap_setPage_same (t : PagedBPlusTree V) (q : Nat) (pg : BPage V)
    (hAll : AllCap t) (hkc : pg.keyCount = (fetchPage t q).keyCount) :
    AllCap (setPage t q pg) :=
  AllCap_setPage t q pg hAll (hkc ▸ hAll q)

theorem AllCap_splitLeafPage (fuel : Nat) (t : PagedBPlusTree V) (leafPageId : Nat)
    (key : Int) (value : V) (hAll : AllCap t) (h3 : 3 ≤ t.order)
    (hmax : t.order ≤ 2147483647) :
    AllCap (splitLeafPage fuel t leafPageId key value) := by
  simp only [splitLeafPage]
  have hmid := mid_le_cap t h3 hmax
  have hkc2 : ∀ r, (fetchPage (setPage (allocatePage t).2 (allocatePage t).1
      { fetchPage (allocatePage t).2 (allocatePage t).1 with pageType := .leaf })
      r).keyCount ≤ ordCap t := by
    intro r
    rw [fetchPage_setPage]
    by_cases hr : r = (allocatePage t).1
    · rw [if_pos hr]; exact hAll _
    · rw [if_neg hr]; exact hAll _
  have hlen : ∀ (pg : BPage V) (k : Int),
      ((pageKeysList pg).insertIdx (listInsertPos (pageKeysList pg) k) k).length =
        pg.keyCount + 1 := by
    intro pg k
    rw [List.length_insertIdx _ _ (listInsertPos_le _ _), pageKeysList_length]
  have hA2 : AllCap (setPage (allocatePage t).2 (allocatePage t).1
      { fetchPage (allocatePage t).2 (allocatePage t).1 with pageType := .leaf }) :=
    AllCap_setPage_same _ _ _ (AllCap_allocatePage t hAll) rfl
  split_ifs with h1 h2 h3b
  · apply AllCap_rootId
    apply AllCap_setPage_same
    · apply AllCap_setPage_same
      · apply AllCap_setPage
        · apply AllCap_allocatePage
          apply AllCap_setPage_same
          · apply AllCap_setPage_same
            · apply AllCap_setPage
              · apply AllCap_setPage
                · exact hA2
                · simp only [ordCap_setPage, ordCap_allocatePage, setPage_order, allocatePage_order]
                  exact hmid.1
              · simp only [ordCap_setPage, ordCap_allocatePage, setPage_order, allocatePage_order]
                rw [hlen]
                have hd := hkc2 leafPageId
                dsimp only at hd
                omega
            · rfl
          · rfl
        · simp only [ordCap_setPage, ordCap_allocatePage]
          omega
      · rfl
    · rfl
  · apply AllCap_insertInternal
    · apply AllCap_setPage_same
      · apply AllCap_setPage_same
        · apply AllCap_setPage_same
          · apply AllCap_setPage
            · apply AllCap_setPage
              · exact hA2
              · simp only [ordCap_setPage, ordCap_allocatePage, setPage_order, allocatePage_order]
                exact hmid.1
            · simp only [ordCap_setPage, ordCap_allocatePage, setPage_order, allocatePage_order]
              rw [hlen]
              have hd := hkc2 leafPageId
              dsimp only at hd
              omega
          · rfl
        · rfl
      · rfl
    · simp only [setPage_order, allocatePage_order]
      exact h3
    · simp only [setPage_order, allocatePage_order]
      exact hmax
  · apply AllCap_rootId
    apply AllCap_setPage_same
    · apply AllCap_setPage_same
      · apply AllCap_setPage
        · apply AllCap_allocatePage
          apply AllCap_setPage_same
          · apply AllCap_setPage
            · apply AllCap_setPage
              · exact hA2
              · simp only [ordCap_setPage, ordCap_allocatePage, setPage_order, allocatePage_order]
                exact hmid.1
            · simp only [ordCap_setPage, ordCap_allocatePage, setPage_order, allocatePage_order]
              rw [hlen]
              have hd := hkc2 leafPageId
              dsimp only at hd
              omega
          · rfl
        · simp only [ordCap_setPage, ordCap_allocatePage]
          omega
      · rfl
    · rfl
  · apply AllCap_insertInternal
    · apply AllCap_setPage_same
      · apply AllCap_setPage_same
        · apply AllCap_setPage
          · apply AllCap_setPage
            · exact hA2
            · simp only [ordCap_setPage, ordCap_allocatePage, setPage_order, allocatePage_order]
              exact hmid.1
          · simp only [ordCap_setPage, ordCap_allocatePage, setPage_order, allocatePage_order]
            rw [hlen]
            have hd := hkc2 leafPageId
            dsimp only at hd
            omega
        · rfl
      · rfl
    · simp only [setPage_order, allocatePage_order]
      exact h3
    · simp only [setPage_order, allocatePage_order]
      exact hmax

theorem insertInternal_order (fuel : Nat) : ∀ (t : PagedBPlusTree V) (key : Int)
    (pid child : Nat), (insertInternal fuel t key pid child).order = t.order := by
  induction fuel with
  | zero => intro t key pid child; rfl
  | succ fuel ih =>
    intro t key pid child
    simp only [insertInternal]
    split_ifs with h1 h2
    · simp
    · dsimp only
      simp [splitInternalCore_order]
    · rw [ih]
      simp [splitInternalCore_order]

theorem splitLeafPage_order (fuel : Nat) (t : PagedBPlusTree V) (lid : Nat) (key : Int)
    (value : V) : (splitLeafPage fuel t lid key value).order = t.order := by
  simp only [splitLeafPage]
  split_ifs with h1 h2 h3b
  · simp
  · rw [insertInternal_order]
    simp
  · simp
  · rw [insertInternal_order]
    simp

theorem insert_order (t : PagedBPlusTree V) (key : Int) (value : V) :
    (insert t key value).order = t.order := by
  simp only [insert]
  split
  · simp
  · split_ifs with h
    · simp
    · rw [splitLeafPage_order]

theorem AllCap_insert (t : PagedBPlusTree V) (key : Int) (value : V)
    (hAll : AllCap t) (h3 : 3 ≤ t.order) (hmax : t.order ≤ 2147483647) :
    AllCap (insert t key value) := by
  simp only [insert]
  split
  · apply AllCap_setPage_same
    · exact hAll
    · rfl
  · split_ifs with hroom
    · apply AllCap_setPage
      · exact hAll
      · dsimp only
        omega
    · exact AllCap_splitLeafPage _ _ _ _ _ hAll h3 hmax

theorem AllCap_newTree (W : Type) [Inhabited W] (ord : Int) : AllCap (newTree W ord) := by
  intro r
  show (fetchPage (setPage _ _ _) r).keyCount ≤ _
  rw [fetchPage_setPage]
  split_ifs with hr
  · exact Nat.zero_le _
  · exact Nat.zero_le _

/-- C10 driver. -/
theorem AllCap_foldl (ord : Int) (h3 : 3 ≤ ord) (hmax : ord ≤ 2147483647) :
    ∀ (l : List (Int × V)) (s : PagedBPlusTree V), AllCap s → s.order = ord →
      AllCap (l.foldl (fun s op => insert s op.1 op.2) s) ∧
      (l.foldl (fun s op => insert s op.1 op.2) s).order = ord := by
  intro l
  induction l with
  | nil => intro s hA hO; exact ⟨hA, hO⟩
  | cons hd tl ih =>
    intro s hA hO
    apply ih
    · exact AllCap_insert _ _ _ hA (by omega) (by omega)
    · rw [insert_order, hO]

/-- C10: for every `PagedBPlusTree` constructed with `order ≥ 3` (an `int`,
hence `≤ 2147483647`), after every sequence of `insert(key, value)` calls
every page — in particular every page reachable from the root — holds at
most `order - 1` keys: the direct-insert path is guarded by
`keyCount < order - 1`, and both split variants leave each output page at
or below that bound. -/
theorem claim_C10_key_count_bound (W : Type) [Inhabited W] (ord : Int)
    (h3 : 3 ≤ ord) (hmax : ord ≤ 2147483647) (ops : List (Int × W)) (pid : Nat) :
    (fetchPage (ops.foldl (fun s op => insert s op.1 op.2) (newTree W ord)) pid).keyCount
      ≤ (ord - 1).toNat := by
  have h := AllCap_foldl ord h3 hmax ops (newTree W ord) (AllCap_newTree W ord) rfl
  have hb := h.1 pid
  rwa [ordCap_toNat _ (by rw [h.2]; exact h3) (by rw [h.2]; exact hmax), h.2] at hb

theorem claim_C10_witness :
    3 ≤ (4 : Int) ∧ (4 : Int) ≤ 2147483647 ∧
    (fetchPage (([((5 : Int), (50 : Nat)), (7, 70), (9, 90), (11, 110), (2, 20)]).foldl
        (fun s op => insert s op.1 op.2) (newTree Nat 4)) 1).keyCount ≤ ((4 : Int) - 1).toNat :=
  ⟨by norm_num, by norm_num,
    claim_C10_key_count_bound Nat 4 (by norm_num) (by norm_num)
      [((5 : Int), (50 : Nat)), (7, 70), (9, 90), (11, 110), (2, 20)] 1⟩

end DBE
